import Mathlib

/-!
Verification development for the `ivv-dashboard` repository: a shallow
embedding of the client-side data-aggregation pipeline of the dashboard
(`src/Dashboard.tsx` and the larger unnamed dashboard variant), together
with theorems settling the specification claims about it.

Modelling conventions:
* JavaScript numbers are modelled as `ℚ` (the pipeline only performs
  field arithmetic; floating-point representation is out of scope).
* `Number(x)` applied to a raw spreadsheet cell either yields a finite
  value or `NaN`; cells are therefore modelled as `Option ℚ`
  (`none` = missing / non-finite).
* JavaScript `Map` objects are modelled as insertion-ordered association
  lists when iteration order matters, and as lookup functions otherwise.
* `Array.prototype.sort` (a stable sort) is modelled as `List.insertionSort`.
* `dayjs` is an external collaborator; date → weekday conversion is an
  abstract parameter, and month-key extraction from already-normalised
  `YYYY-MM-DD` strings is the 7-character prefix, as in the fallback path.
-/

namespace IvvDashboard

/-- Rounding used by JavaScript `Math.round` and `Number.prototype.toFixed`:
round half toward positive infinity. -/
def jsRound (q : ℚ) : ℤ := Rat.floor (q + 1/2)

/-- The `+(x).toFixed(2)` pattern of the source: round to 2 decimals. -/
def round2 (q : ℚ) : ℚ := (jsRound (q * 100) : ℚ) / 100

/-- The `+(x).toFixed(1)` pattern of the source: round to 1 decimal. -/
def round1 (q : ℚ) : ℚ := (jsRound (q * 10) : ℚ) / 10

/-! ## Filter state (Dashboard.tsx lines 119-128, part_000 lines 577-586)

The month-revalidation `useEffect` runs after every change of `year`,
`month` or `monthsByYear` (so also after data reloads that change the
month list).  `repairMonth` is the resulting month value. -/

/-- Month revalidation effect, translated from the source:
if `year === "ALL"`, force month to `"ALL"`; otherwise reset month to
`"ALL"` when it is not in the selected year's month list. -/
def repairMonth (monthsByYear : List (String × List String))
    (year month : String) : String :=
  if year = "ALL" then
    (if month ≠ "ALL" then "ALL" else month)
  else
    let list := (monthsByYear.lookup year).getD []
    if month ≠ "ALL" && !(list.contains month) then "ALL" else month

/-! ## Duration group / facet controls (part_000 lines 901-920, 1176) -/

/-- State of the duration-histogram grouping controls
(`durationGroupBy`, `durationGroupSelection`, `durationFacetEnabled`). -/
structure GroupConfig where
  groupBy : String
  selection : String
  facetEnabled : Bool
deriving DecidableEq, Repr

/-- The group/facet repair `useEffect` from the source, as a single pass:
`groupBy === "none"` clears the selection and disables faceting; otherwise
a selection that is no longer among the options is reset to `"ALL"`, and a
non-`"ALL"` selection disables faceting. -/
def repairGroup (catOpts modOpts : List String) (g : GroupConfig) : GroupConfig :=
  if g.groupBy = "none" then
    { g with selection := "ALL", facetEnabled := false }
  else
    let options := if g.groupBy = "category" then catOpts else modOpts
    let g1 := if g.selection ≠ "ALL" && !(options.contains g.selection) then
        { g with selection := "ALL" }
      else g
    if g.selection ≠ "ALL" && g.facetEnabled then { g1 with facetEnabled := false }
    else g1

/-- The `facet` flag computed inside `durationChart` (part_000 line 1176):
`durationFacetEnabled && durationGroupBy !== "none" &&
durationGroupSelection === "ALL" && groupField !== null`. -/
def facetActive (g : GroupConfig) : Bool :=
  g.facetEnabled && !(g.groupBy == "none") && (g.selection == "ALL")
    && (g.groupBy == "category" || g.groupBy == "module")

/-! ## Daily trend rows and moving averages (Dashboard.tsx lines 43-51, 141-143) -/

/-- A normalised daily trend row (`{date, count, ma7?, ma30?}`). -/
structure TrendRow where
  date : String
  count : ℚ
  ma7 : Option ℚ := none
  ma30 : Option ℚ := none
deriving DecidableEq, Repr

instance : Inhabited TrendRow := ⟨{ date := "", count := 0 }⟩

/-- Writing the dynamic property `ma${win}` of the source; only windows 7
and 30 occur in the program. -/
def setMaField (win : Nat) (v : Option ℚ) (r : TrendRow) : TrendRow :=
  if win = 7 then { r with ma7 := v }
  else if win = 30 then { r with ma30 := v }
  else r

/-- One iteration of the `movingAvg` loop of the source: add the current
value to the running sum, drop the value `win` positions back once past
the window, and emit the row with `ma${win}` set to the rounded mean when
at least `win` values have been seen. -/
def maStep (data : List TrendRow) (key : TrendRow → ℚ) (win : Nat)
    (acc : ℚ × List TrendRow) (i : Nat) : ℚ × List TrendRow :=
  let row := data.getD i default
  let s1 := acc.1 + key row
  let s2 := if win ≤ i then s1 - key (data.getD (i - win) default) else s1
  (s2, acc.2 ++ [setMaField win
    (if win - 1 ≤ i then some (round2 (s2 / (win : ℚ))) else none) row])

/-- The `movingAvg` function of the source (a sliding-window sum over the
indices of `data`). -/
def movingAvg (data : List TrendRow) (key : TrendRow → ℚ) (win : Nat) :
    List TrendRow :=
  ((List.range data.length).foldl (maStep data key win) ((0 : ℚ), [])).2

/-- `trendRows`: the two moving-average passes applied in sequence, both
reading the `count` field (Dashboard.tsx line 142). -/
def trendRows (filteredTrend : List TrendRow) : List TrendRow :=
  movingAvg (movingAvg filteredTrend (fun r => r.count) 7) (fun r => r.count) 30

/-- Prefix sum of the keyed values over indices `[0, n)`, with the
source's `?? 0` default beyond the end of the list. -/
def keyPrefixSum (data : List TrendRow) (key : TrendRow → ℚ) (n : Nat) : ℚ :=
  ((List.range n).map (fun j => key (data.getD j default))).sum

/-- The row emitted by `movingAvg` at index `i`, in closed form. -/
def maOut (data : List TrendRow) (key : TrendRow → ℚ) (win : Nat) (i : Nat) :
    TrendRow :=
  setMaField win
    (if win - 1 ≤ i then
      some (round2 ((keyPrefixSum data key (i + 1) -
        keyPrefixSum data key (i + 1 - win)) / (win : ℚ)))
    else none)
    (data.getD i default)

/-- C1 witness data: the spec scenario of eight consecutive days. -/
def sampleTrend : List TrendRow :=
  [⟨"2024-01-01", 10, none, none⟩, ⟨"2024-01-02", 20, none, none⟩,
   ⟨"2024-01-03", 30, none, none⟩, ⟨"2024-01-04", 40, none, none⟩,
   ⟨"2024-01-05", 50, none, none⟩, ⟨"2024-01-06", 60, none, none⟩,
   ⟨"2024-01-07", 70, none, none⟩, ⟨"2024-01-08", 10, none, none⟩]

/-! ## Monthly totals (Dashboard.tsx lines 39-41, 145-167) -/

/-- Month key of a date string (`monthKey` in the source).  For the
already-normalised `YYYY-MM-DD` dates of the trend series, `dayjs`
formatting as `YYYY-MM` coincides with the 7-character prefix, which is
also the source's fallback for invalid dates (`String(iso).slice(0, 7)`). -/
def monthKey (iso : String) : String := String.mk (iso.data.take 7)

/-- `yearFromMonth`: `month.slice(0, 4)`. -/
def yearFromMonth (month : String) : String := String.mk (month.data.take 4)

/-- One per-month accumulator entry of `monthlyTotals` (the JS `Map`
value, which carries its own key in the `month` field). -/
structure MonthlyStat where
  month : String
  total : ℚ
  days : Nat
  max : TrendRow
  min : TrendRow
deriving DecidableEq, Repr

/-- The fresh entry installed by `map.set(key, {month: key, total: 0,
days: 0, max: row, min: row})`. -/
def initStat (key : String) (row : TrendRow) : MonthlyStat :=
  { month := key, total := 0, days := 0, max := row, min := row }

/-- The in-place mutation of one iteration of the `monthlyTotals` loop:
`stat.total += count`, `stat.days += 1`, and max/min tracking (ties keep
the earlier row). -/
def updateStat (row : TrendRow) (s : MonthlyStat) : MonthlyStat :=
  let s1 := { s with total := s.total + row.count, days := s.days + 1 }
  let s2 := if row.count > s1.max.count then { s1 with max := row } else s1
  if row.count < s2.min.count then { s2 with min := row } else s2

/-- One iteration of the `monthlyTotals` loop over the insertion-ordered
association list that models the JS `Map`. -/
def monthlyStep (acc : List MonthlyStat) (row : TrendRow) : List MonthlyStat :=
  let key := monthKey row.date
  let acc1 := if acc.any (fun s => s.month == key) then acc
    else acc ++ [initStat key row]
  acc1.map (fun s => if s.month == key then updateStat row s else s)

/-- `monthlyTotals`: group all trend rows by month key, then sort the
`Map` values by month (`Array.prototype.sort` modelled as a stable sort). -/
def monthlyTotals (trendAll : List TrendRow) : List MonthlyStat :=
  List.insertionSort (fun a b => a.month ≤ b.month) (trendAll.foldl monthlyStep [])

/-- View of an optional entry's `total` (0 when absent). -/
def statTotal : Option MonthlyStat → ℚ
  | none => 0
  | some s => s.total

/-- View of an optional entry's `days` (0 when absent). -/
def statDays : Option MonthlyStat → Nat
  | none => 0
  | some s => s.days

/-- C5 witness data: one trend row, and the stat entry it produces. -/
def c5Row : TrendRow := ⟨"2024-01-05", 10, none, none⟩

/-- C5 witness data: the monthly entry produced by `c5Row`. -/
def c5Stat : MonthlyStat := ⟨"2024-01", 10, 1, c5Row, c5Row⟩

/-! ## Duration histogram (part_000 lines 829-1267)

The duration pipeline reads, per raw call row, the first present
duration alias through `Number(...)` (modelled as `Option ℚ`, `none` =
absent or non-finite) and the first present category/module alias
(`Option String`).  `String.prototype.trim` is modelled character-wise.
The per-group facet counts and the mean/median summary statistics are
omitted from the model: the claims under verification concern the
per-bin totals, which the source accumulates independently of grouping. -/

/-- A raw service-call row, restricted to the fields the duration
pipeline reads. -/
structure CallRow where
  duration : Option ℚ
  categoryRaw : Option String
  moduleRaw : Option String
deriving Repr

/-- `String.prototype.trim`, character-wise. -/
def jsTrim (s : String) : String :=
  String.mk (((s.data.dropWhile Char.isWhitespace).reverse.dropWhile
    Char.isWhitespace).reverse)

/-- `normalizeCategory`: first present alias, trimmed, with the
`"未分類"` fallback. -/
def normalizeCategory (r : CallRow) : String :=
  let name := jsTrim (r.categoryRaw.getD "")
  if name = "" then "未分類" else name

/-- `normalizeModule`: first present alias, trimmed, with the
`"未指派"` fallback. -/
def normalizeModule (r : CallRow) : String :=
  let name := jsTrim (r.moduleRaw.getD "")
  if name = "" then "未指派" else name

/-- A row kept for binning (`DurationRow` of the source, minus the
`source` back-pointer). -/
structure DurationRow where
  minutes : ℚ
  category : String
  module : String
deriving DecidableEq, Repr

/-- One iteration of the `durationBase` loop: non-finite durations go to
`missing`, finite ones are clamped at 0 (`Math.max(0, rawDuration)`) and
kept. -/
def durationBaseStep (acc : List DurationRow × List CallRow) (rawRow : CallRow) :
    List DurationRow × List CallRow :=
  match rawRow.duration with
  | none => (acc.1, acc.2 ++ [rawRow])
  | some d =>
    (acc.1 ++ [⟨max 0 d, normalizeCategory rawRow, normalizeModule rawRow⟩],
     acc.2)

/-- `durationBase` over the year/month-filtered calls: the binning
population and the missing rows. -/
def durationBase (filteredCalls : List CallRow) :
    List DurationRow × List CallRow :=
  filteredCalls.foldl durationBaseStep ([], [])

/-- A duration bin (`{min, max, label}`; `max = none` is an unbounded
last bin). -/
structure Bin where
  min : ℚ
  max : Option ℚ
  label : String
deriving DecidableEq, Repr

instance : Inhabited Bin := ⟨⟨0, none, ""⟩⟩

/-- The canonical fixed bin ladder of the source. -/
def FIXED_DURATION_BINS : List (ℚ × Option ℚ) :=
  [(0, some 3), (3, some 5), (5, some 10), (10, some 15), (15, some 20),
   (20, some 30), (30, some 45), (45, some 60), (60, some 90),
   (90, some 120), (120, some 180), (180, none)]

/-- `formatDurationLabel`: `"a-b 分"`, `"a 分"` when the rounded bounds
coincide, `"a+ 分"` for an unbounded bin. -/
def formatDurationLabel (lo : ℚ) (hi : Option ℚ) : String :=
  match hi with
  | none => toString (jsRound lo) ++ "+ 分"
  | some mx =>
    let roundedMin := jsRound lo
    let roundedMax := jsRound mx
    if roundedMin = roundedMax then toString roundedMin ++ " 分"
    else toString roundedMin ++ "-" ++ toString roundedMax ++ " 分"

/-- JS rendering of the (integral) focus limit in the overflow label. -/
def jsNumToString (q : ℚ) : String :=
  if q.den = 1 then toString q.num
  else toString q.num ++ "/" ++ toString q.den

/-- `buildFixedBins`: the fixed ladder, truncated to the focus limit
(`(bin.max ?? Infinity) <= limit + 1e-6`; an unbounded max never passes a
finite limit), with the degenerate single-bin fallback. -/
def buildFixedBins (limit : Option ℚ) (valuesSorted : List ℚ) : List Bin :=
  let bins0 := FIXED_DURATION_BINS.map (fun b =>
    (⟨b.1, b.2, formatDurationLabel b.1 b.2⟩ : Bin))
  let bins := match limit with
    | some l => bins0.filter (fun b =>
        match b.max with
        | none => false
        | some mx => decide (mx ≤ l + 1/1000000))
    | none => bins0
  if bins = [] then
    let mx := match limit with
      | some l => l
      | none => valuesSorted.getD (valuesSorted.length - 1) 30
    [⟨0, some mx, formatDurationLabel 0 (some mx)⟩]
  else bins

/-- `Math.ceil(Math.sqrt(n))` on naturals. -/
def ceilSqrt (n : Nat) : Nat :=
  let s := Nat.sqrt n
  if s * s = n then s else s + 1

/-- `buildAutoBins`: `clamp(ceil(sqrt(n)), 4, 12)` equal-width bins over
the observed range, with the degenerate cases of the source. -/
def buildAutoBins (focusLimit : Option ℚ) (valuesSorted valuesForBins : List ℚ) :
    List Bin :=
  if valuesForBins = [] then
    let fallback := match focusLimit with
      | some l => l
      | none => valuesSorted.getD (valuesSorted.length - 1) 30
    [⟨0, some fallback, formatDurationLabel 0 (some fallback)⟩]
  else
    let minValue := valuesForBins.foldl min (valuesForBins.headD 0)
    let maxValue := valuesForBins.foldl max (valuesForBins.headD 0)
    if minValue = maxValue then
      let width := max 1 minValue
      let lower := max 0 (minValue - width / 2)
      [⟨lower, some (minValue + width / 2),
        formatDurationLabel lower (some (minValue + width / 2))⟩]
    else
      let span := max (maxValue - minValue) 1
      let desiredBins := min 12 (max 4 (ceilSqrt valuesForBins.length))
      let width := span / (desiredBins : ℚ)
      ((List.range desiredBins).foldl (fun (st : ℚ × List Bin) i =>
        let e := if i = desiredBins - 1 then maxValue else st.1 + width
        (e, st.2 ++ [⟨st.1, some e, formatDurationLabel st.1 (some e)⟩]))
        (minValue, [])).2

/-- The linear scan of `assignRowToBinIndex` over the base bins: first
bin with `value >= min && value < upperBound`, the last bin's upper bound
widened by `1e-6` (an unbounded max always admits the value); fallback is
the last index. -/
def assignLoop (baseBins : List Bin) (value : ℚ) : Nat :=
  ((List.range baseBins.length).find? (fun i =>
    let bin := baseBins.getD i default
    match bin.max with
    | none => decide (bin.min ≤ value)
    | some mx =>
      decide (bin.min ≤ value) &&
        decide (value <
          (if i = baseBins.length - 1 then mx + 1/1000000 else mx)))).getD
    (baseBins.length - 1)

/-- `assignRowToBinIndex`: values above the focus limit go to the
overflow bin when it exists; otherwise the linear scan. -/
def assignRowToBinIndex (focusLimit : Option ℚ) (overLimitIndex : Option Nat)
    (baseBins : List Bin) (value : ℚ) : Nat :=
  match overLimitIndex, focusLimit with
  | some oi, some l => if l < value then oi else assignLoop baseBins value
  | _, _ => assignLoop baseBins value

/-- Increment the count of bin `i` (`summary.total += 1`). -/
def bumpAt (l : List (Bin × Nat)) (i : Nat) : List (Bin × Nat) :=
  l.set i ((l.getD i default).1, (l.getD i default).2 + 1)

/-- The binning loop: one increment per active row at its assigned index. -/
def tallyBins (assign : ℚ → Nat) (rows : List DurationRow)
    (binsInit : List (Bin × Nat)) : List (Bin × Nat) :=
  rows.foldl (fun acc row => bumpAt acc (assign row.minutes)) binsInit

/-- `activeRows`: the group-selection filter over the binning population. -/
def activeRowsOf (groupBy selection : String) (allRows : List DurationRow) :
    List DurationRow :=
  if groupBy = "category" ∧ selection ≠ "ALL" then
    allRows.filter (fun r => r.category == selection)
  else if groupBy = "module" ∧ selection ≠ "ALL" then
    allRows.filter (fun r => r.module == selection)
  else allRows

/-- The `durationChart` computation, restricted to what the claims
consult: the bin summaries with their totals, `totalCount`, and
`missingCount`.  Mirrors the source's early returns, focus-limit
handling, bin construction, overflow bin, and binning loop. -/
def durationChartBins (binMode : String) (focus30 : Bool)
    (groupBy selection : String) (calls : List CallRow) :
    List (Bin × Nat) × Nat × Nat :=
  let base := durationBase calls
  let allRows := base.1
  let missing := base.2
  if allRows = [] then ([], 0, missing.length)
  else
    let focusLimit : Option ℚ := if focus30 then some 30 else none
    let activeRows := activeRowsOf groupBy selection allRows
    if activeRows = [] then ([], 0, missing.length)
    else
      let valuesSorted := List.insertionSort (fun a b => a ≤ b)
        (activeRows.map (fun r => r.minutes))
      let totalCount := valuesSorted.length
      let valuesForBins := match focusLimit with
        | none => activeRows.map (fun r => r.minutes)
        | some l => (activeRows.filter (fun r => r.minutes ≤ l)).map
            (fun r => r.minutes)
      let overLimitRows := match focusLimit with
        | none => ([] : List DurationRow)
        | some l => activeRows.filter (fun r => l < r.minutes)
      let baseBins := if binMode = "fixed" then buildFixedBins focusLimit valuesSorted
        else buildAutoBins focusLimit valuesSorted valuesForBins
      let overLimitIndex : Option Nat := match focusLimit with
        | some _ => if overLimitRows = [] then none else some baseBins.length
        | none => none
      let binsAll : List Bin := match focusLimit, overLimitIndex with
        | some l, some _ => baseBins ++ [⟨l, none, jsNumToString l ++ "+ 分"⟩]
        | _, _ => baseBins
      let tallied := tallyBins
        (assignRowToBinIndex focusLimit overLimitIndex baseBins)
        activeRows (binsAll.map (fun b => (b, 0)))
      (tallied, totalCount, missing.length)

/-- The displayed result rows: in auto mode, empty bounded bins are
skipped (`bin.total === 0 && bin.max !== null && durationBinMode !==
"fixed"`). -/
def durationResultRows (binMode : String) (tallied : List (Bin × Nat)) :
    List (Bin × Nat) :=
  tallied.filter (fun bc =>
    !(decide (bc.2 = 0) && decide (bc.1.max ≠ none) && decide (binMode ≠ "fixed")))

/-- The claim's in-scope group-selection predicate on a raw call row. -/
def matchesSel (groupBy selection : String) (c : CallRow) : Bool :=
  if groupBy = "category" ∧ selection ≠ "ALL" then
    normalizeCategory c == selection
  else if groupBy = "module" ∧ selection ≠ "ALL" then
    normalizeModule c == selection
  else true

/-- C2 scenario data: duration rows of 5, 12, 45 and 200 minutes. -/
def c2Calls : List CallRow :=
  [⟨some 5, none, none⟩, ⟨some 12, none, none⟩,
   ⟨some 45, none, none⟩, ⟨some 200, none, none⟩]

/-- C3 counterexample data: one 5-minute row in category `"A"` and one
duration-less row in category `"B"`. -/
def c3Calls : List CallRow :=
  [⟨some 5, some "A", none⟩, ⟨none, some "B", none⟩]

/-- C10 witness data: one row whose duration parses to a finite negative
number. -/
def c10Calls : List CallRow := [⟨some (-3), none, none⟩]

/-! ## Month-over-month and year-over-year deltas (Dashboard.tsx lines
180-199, 409-415)

`dayjs` key arithmetic is modelled on the `YYYY-MM` string: validity of
`dayjs(`${m}-01`)` is approximated by the year component parsing as a
number, `subtract(1, "year")` decrements it, and `format("YYYY-MM")`
re-renders it zero-padded. -/

/-- Parse a non-empty all-digit character list as a natural number. -/
def digitsToNat (l : List Char) : Option Nat :=
  if l ≠ [] ∧ l.all Char.isDigit then
    some (l.foldl (fun n c => n * 10 + (c.toNat - 48)) 0)
  else none

/-- Render a year zero-padded to 4 digits (`format("YYYY")`). -/
def padYear4 (n : Nat) : String :=
  let s := toString n
  String.mk (List.replicate (4 - s.length) '0' ++ s.data)

/-- The key exactly one calendar year earlier
(`dayjs(`${m}-01`).subtract(1, "year").format("YYYY-MM")`), `none` when
the key does not parse. -/
def yoyKeyOf (m : String) : Option String :=
  match digitsToNat (m.data.take 4) with
  | some y =>
    if 1 ≤ y then some (padYear4 (y - 1) ++ String.mk (m.data.drop 4)) else none
  | none => none

/-- `selectedMonthly`: the monthly-totals entry for the selected key. -/
def selectedMonthlyOf (totals : List MonthlyStat) (sel : String) :
    Option MonthlyStat :=
  totals.find? (fun s => s.month == sel)

/-- `yoyMonthly`: the entry whose key is one year earlier, found by key
(not by list position). -/
def yoyMonthly (totals : List MonthlyStat) (sel : String) : Option MonthlyStat :=
  match yoyKeyOf sel with
  | none => none
  | some k => totals.find? (fun s => s.month == k)

/-- `previousMonthly`: the entry preceding the selected one in the active
list (`findIndex`; `idx <= 0` yields `null`). -/
def previousMonthlyOf (baseList : List MonthlyStat) (sel : String) :
    Option MonthlyStat :=
  match baseList.findIdx? (fun s => s.month == sel) with
  | none => none
  | some idx => if idx = 0 then none else baseList[idx - 1]?

/-- The month-over-month insight value: `previousMonthly &&
previousMonthly.total ? ((total - previousMonthly.total) /
previousMonthly.total) * 100 : null`. -/
def momPercentOf (totals baseList : List MonthlyStat) (sel : String) : Option ℚ :=
  match selectedMonthlyOf totals sel, previousMonthlyOf baseList sel with
  | some cur, some prev =>
    if prev.total ≠ 0 then some ((cur.total - prev.total) / prev.total * 100)
    else none
  | _, _ => none

/-- The year-over-year insight value: `yoyMonthly && yoyMonthly.total ?
((total - yoyMonthly.total) / yoyMonthly.total) * 100 : null`. -/
def yoyPercentOf (totals : List MonthlyStat) (sel : String) : Option ℚ :=
  match selectedMonthlyOf totals sel, yoyMonthly totals sel with
  | some cur, some base =>
    if base.total ≠ 0 then some ((cur.total - base.total) / base.total * 100)
    else none
  | _, _ => none

/-- A placeholder trend row for scenario data. -/
def dummyRow : TrendRow := ⟨"", 0, none, none⟩

/-- The spec's year-over-year scenario (`{2023-06: 100, 2024-06: 150}`),
listed with 2024-06 first so the baseline is not the adjacent entry. -/
def c7Totals : List MonthlyStat :=
  [⟨"2024-06", 150, 30, dummyRow, dummyRow⟩,
   ⟨"2023-06", 100, 30, dummyRow, dummyRow⟩]

/-! ## Weekday seasonality (Dashboard.tsx lines 381-403, part_000 lines
1385-1399)

`dayjs(date).day()` (0 = Sunday … 6 = Saturday) is an external
collaborator; it is modelled as an abstract parameter
`dow : String → Option (Fin 7)` where `none` is an invalid date.  The
`stats` JS `Map` is modelled as a lookup function, since only `get`/`set`
are used and the output iterates over `order`, not the map. -/

/-- `labelByDay` of the source: weekday labels indexed by `d.day()`. -/
def labelByDay : List String := ["週日", "週一", "週二", "週三", "週四", "週五", "週六"]

/-- `order` of the source: chart display order, Monday first. -/
def weekOrder : List String := ["週一", "週二", "週三", "週四", "週五", "週六", "週日"]

/-- One output row of the weekday chart. -/
structure WeekdayRow where
  name : String
  average : ℚ
  total : ℚ
deriving DecidableEq, Repr

instance : Inhabited WeekdayRow := ⟨⟨"", 0, 0⟩⟩

/-- The weekday label of a trend row (`labelByDay[d.day()]`), `none` for
an invalid date. -/
def labelOf (dow : String → Option (Fin 7)) (r : TrendRow) : Option String :=
  (dow r.date).map (fun d => labelByDay.getD d.val "")

/-- One iteration of the weekday-stats loop: skip invalid dates, skip
Saturday (`週六固定 0`), otherwise accumulate total and day count. -/
def weekdayStatsStep (dow : String → Option (Fin 7))
    (stats : String → Option (ℚ × Nat)) (row : TrendRow) :
    String → Option (ℚ × Nat) :=
  match dow row.date with
  | none => stats
  | some d =>
    let label := labelByDay.getD d.val ""
    if label = "週六" then stats
    else
      let st := (stats label).getD (0, 0)
      fun n => if n = label then some (st.1 + row.count, st.2 + 1) else stats n

/-- The accumulated weekday stats over the filtered trend. -/
def weekdayStats (dow : String → Option (Fin 7)) (rows : List TrendRow) :
    String → Option (ℚ × Nat) :=
  rows.foldl (weekdayStatsStep dow) (fun _ => none)

/-- `weekdayChartData`: one output row per `order` entry; Saturday is
forced to zero average and total; other weekdays report `total/days`
(0 without observed days), rounded to 1 decimal. -/
def weekdayChartData (dow : String → Option (Fin 7))
    (filteredTrend : List TrendRow) : List WeekdayRow :=
  let stats := weekdayStats dow filteredTrend
  weekOrder.map (fun name =>
    let st := stats name
    let average : ℚ :=
      if name = "週六" then 0
      else
        match st with
        | some s => if s.2 ≠ 0 then s.1 / (s.2 : ℚ) else 0
        | none => 0
    let total : ℚ :=
      if name = "週六" then 0 else (st.map (fun s => s.1)).getD 0
    { name := name, average := round1 average, total := total })

/-- C8 witness data: a constant weekday assignment (every date is a
Monday). -/
def c8Dow : String → Option (Fin 7) := fun _ => some 1

/-! ## CSV export adapter (Dashboard.tsx lines 28-33)

`toCsv` serialises an array of records: empty input yields `""`; otherwise
a byte-order-mark, the first row's keys joined by `","` as the header
line, then one line per row with each field `JSON.stringify`-ed, the
lines joined by `"\n"`. -/

/-- Values stored in exported records.  The dashboard exports strings and
numbers; numeric fields are modelled as integers (decimal rendering of
non-integral doubles is immaterial to the structural claims). -/
inductive JsonValue where
  | str (s : String)
  | num (n : ℤ)
deriving DecidableEq, Repr

/-- Hexadecimal digit character, used in `\u00XX` escapes. -/
def hexDigitChar (n : Nat) : Char :=
  if n < 10 then Char.ofNat (48 + n) else Char.ofNat (87 + n)

/-- Escaping of a single character inside a JSON string literal, as done
by `JSON.stringify`. -/
def escapeChar (c : Char) : String :=
  if c = '"' then "\\\""
  else if c = '\\' then "\\\\"
  else if c = '\n' then "\\n"
  else if c = '\r' then "\\r"
  else if c = '\t' then "\\t"
  else if c = Char.ofNat 8 then "\\b"
  else if c = Char.ofNat 12 then "\\f"
  else if c.toNat < 32 then
    "\\u00" ++ String.mk [hexDigitChar (c.toNat / 16), hexDigitChar (c.toNat % 16)]
  else String.mk [c]

/-- JSON string-body escaping, character by character. -/
def jsonEscapeList : List Char → String
  | [] => ""
  | c :: cs => escapeChar c ++ jsonEscapeList cs

/-- Decimal rendering of a natural number. -/
def natDecimal (n : Nat) : String :=
  if n = 0 then "0"
  else String.mk ((Nat.digits 10 n).reverse.map (fun d => Char.ofNat (48 + d)))

/-- Decimal rendering of an integer, as `JSON.stringify` renders an
integral number. -/
def intDecimal (n : ℤ) : String :=
  if n < 0 then "-" ++ natDecimal n.natAbs else natDecimal n.natAbs

/-- `JSON.stringify` of a field value. -/
def jsonStringifyVal : JsonValue → String
  | .str s => "\"" ++ jsonEscapeList s.data ++ "\""
  | .num n => intDecimal n

/-- `Array.prototype.join(sep)`. -/
def joinSep (sep : String) : List String → String
  | [] => ""
  | [x] => x
  | x :: xs => x ++ sep ++ joinSep sep xs

/-- An exported record: ordered field list (JS object own-key order). -/
abbrev CsvRow := List (String × JsonValue)

/-- The `toCsv` export adapter, translated from the source: empty or
missing input yields `""`; otherwise a BOM-prefixed text whose lines are
the header (keys of the first row) and one `JSON.stringify`-ed data line
per row, joined by newlines. -/
def toCsv (rows : List CsvRow) : String :=
  match rows with
  | [] => ""
  | first :: _ =>
    let headers := first.map (fun kv => kv.1)
    let lines := joinSep "," headers ::
      rows.map (fun r => joinSep "," (headers.map (fun h =>
        jsonStringifyVal ((r.lookup h).getD (JsonValue.str "")))))
    "﻿" ++ joinSep "\n" lines

/-! # Theorems -/

/-- Hex digit characters are never a newline. -/
theorem hexDigitChar_ne_nl (n : Nat) (h : n < 16) : hexDigitChar n ≠ '\n' := by
  interval_cases n <;> decide

/-- Decimal digit characters are never a newline. -/
theorem digitChar_ne_nl (d : Nat) (h : d < 10) : Char.ofNat (48 + d) ≠ '\n' := by
  interval_cases d <;> decide

/-- The escape of any character contains no newline. -/
theorem escapeChar_no_nl (c : Char) : '\n' ∉ (escapeChar c).data := by
  unfold escapeChar
  split
  · decide
  split
  · decide
  split
  · decide
  split
  · decide
  split
  · decide
  split
  · decide
  split
  · decide
  split
  · rename_i h32
    rw [String.data_append]
    intro hmem
    rcases List.mem_append.mp hmem with hl | hr
    · revert hl
      decide
    · simp only [String.mk, List.mem_cons] at hr
      rcases hr with h1 | h1 | h1
      · exact hexDigitChar_ne_nl _ (by omega) h1.symm
      · exact hexDigitChar_ne_nl _ (Nat.mod_lt _ (by omega)) h1.symm
      · exact List.not_mem_nil _ h1
  · rename_i h1 h2 h3 h4 h5 h6 h7 h32
    simp only [String.mk, List.mem_cons, List.not_mem_nil, or_false]
    intro hc
    exact h3 hc.symm

/-- The JSON escaping of any character list contains no newline. -/
theorem jsonEscapeList_no_nl (l : List Char) : '\n' ∉ (jsonEscapeList l).data := by
  induction l with
  | nil => decide
  | cons c cs ih =>
    simp only [jsonEscapeList, String.data_append, List.mem_append]
    rintro (h | h)
    · exact escapeChar_no_nl c h
    · exact ih h

/-- The decimal rendering of a natural number contains no newline. -/
theorem natDecimal_no_nl (n : Nat) : '\n' ∉ (natDecimal n).data := by
  unfold natDecimal
  split
  · decide
  · simp only [String.mk]
    intro hmem
    rcases List.mem_map.mp hmem with ⟨d, hd, hc⟩
    have hd10 : d < 10 :=
      Nat.digits_lt_base (by norm_num) (List.mem_reverse.mp hd)
    exact digitChar_ne_nl d hd10 hc

/-- The rendering of any field value contains no newline. -/
theorem jsonStringifyVal_no_nl (v : JsonValue) : '\n' ∉ (jsonStringifyVal v).data := by
  cases v with
  | str s =>
    simp only [jsonStringifyVal, String.data_append, List.mem_append]
    rintro ((h | h) | h)
    · revert h
      decide
    · exact jsonEscapeList_no_nl s.data h
    · revert h
      decide
  | num n =>
    simp only [jsonStringifyVal, intDecimal]
    split
    · rw [String.data_append]
      rintro hmem
      rcases List.mem_append.mp hmem with h | h
      · revert h
        decide
      · exact natDecimal_no_nl _ h
    · exact natDecimal_no_nl _

/-- A `joinSep` with a newline-free separator of newline-free strings is
newline-free. -/
theorem joinSep_comma_no_nl (l : List String) (hl : ∀ s ∈ l, '\n' ∉ s.data) :
    '\n' ∉ (joinSep "," l).data := by
  induction l with
  | nil => decide
  | cons x xs ih =>
    match xs with
    | [] => exact hl x (List.mem_cons_self x [])
    | y :: ys =>
      show '\n' ∉ (x ++ "," ++ joinSep "," (y :: ys)).data
      simp only [String.data_append, List.mem_append]
      rintro ((h | h) | h)
      · exact hl x (List.mem_cons_self x _) h
      · revert h
        decide
      · exact ih (fun s hs => hl s (List.mem_cons_of_mem x hs)) h

/-- Newline count of newline-joined, newline-free lines: one less than
the number of lines. -/
theorem count_nl_joinSep (l : List String) (hl : ∀ s ∈ l, '\n' ∉ s.data) :
    (joinSep "\n" l).data.count '\n' = l.length - 1 := by
  induction l with
  | nil => decide
  | cons x xs ih =>
    match xs with
    | [] =>
      simp only [joinSep, List.length]
      exact List.count_eq_zero.mpr (hl x (List.mem_cons_self x []))
    | y :: ys =>
      show ((x ++ "\n" ++ joinSep "\n" (y :: ys)).data.count '\n') = _
      simp only [String.data_append, List.count_append]
      rw [List.count_eq_zero.mpr (hl x (List.mem_cons_self x _))]
      rw [ih (fun s hs => hl s (List.mem_cons_of_mem x hs))]
      simp [List.count_cons]
      omega

/-- `takeWhile` of a newline-free list followed by a newline returns the
initial list. -/
theorem takeWhile_nl_append (l₁ l₂ : List Char) (h : '\n' ∉ l₁) :
    (l₁ ++ '\n' :: l₂).takeWhile (fun c => c != '\n') = l₁ := by
  induction l₁ with
  | nil => simp [List.takeWhile]
  | cons c cs ih =>
    have hc : c ≠ '\n' := fun hcc => h (hcc ▸ List.mem_cons_self c cs)
    simp only [List.cons_append, List.takeWhile_cons]
    rw [if_pos (by simpa using hc)]
    rw [ih (fun hm => h (List.mem_cons_of_mem c hm))]

/-- C9: `toCsv` on an empty input is the empty string; on a non-empty
input (whose header keys, being column names, contain no newline) it is
a BOM-prefixed text with exactly `rows.length` newlines — i.e. one header
line followed by exactly one JSON-stringified data line per input row —
and the first line is exactly the comma-joined keys of the first row. -/
theorem c9_toCsv_structure :
    toCsv [] = "" ∧
    ∀ (rows : List CsvRow) (first : CsvRow) (rest : List CsvRow),
      rows = first :: rest →
      (∀ h ∈ first.map (fun kv => kv.1), '\n' ∉ h.data) →
      (toCsv rows).data.head? = some '﻿' ∧
      (toCsv rows).data.count '\n' = rows.length ∧
      ((toCsv rows).data.drop 1).takeWhile (fun c => c != '\n') =
        (joinSep "," (first.map (fun kv => kv.1))).data := by
  refine ⟨rfl, ?_⟩
  rintro rows first rest rfl hheaders
  set headers := first.map (fun kv => kv.1) with hh
  set dataLines := (first :: rest).map (fun r => joinSep "," (headers.map (fun h =>
        jsonStringifyVal ((r.lookup h).getD (JsonValue.str ""))))) with hd
  have hout : toCsv (first :: rest) = "﻿" ++ joinSep "\n" (joinSep "," headers :: dataLines) := rfl
  have hlines_nonl : ∀ s ∈ joinSep "," headers :: dataLines, '\n' ∉ s.data := by
    intro s hs
    rcases List.mem_cons.mp hs with hs | hs
    · subst hs
      exact joinSep_comma_no_nl headers hheaders
    · rcases List.mem_map.mp hs with ⟨r, _, hr⟩
      subst hr
      refine joinSep_comma_no_nl _ ?_
      intro t ht
      rcases List.mem_map.mp ht with ⟨k, _, hk⟩
      subst hk
      exact jsonStringifyVal_no_nl _
  refine ⟨?_, ?_, ?_⟩
  · rw [hout, String.data_append]
    rfl
  · rw [hout, String.data_append]
    have : ("﻿" : String).data.count '\n' = 0 := by decide
    rw [List.count_append, this, count_nl_joinSep _ hlines_nonl]
    simp [hd]
  · rw [hout, String.data_append]
    have hbom : ("﻿" : String).data = ['﻿'] := rfl
    rw [hbom]
    simp only [List.cons_append, List.drop_succ_cons, List.drop_zero, List.nil_append]
    have hdl : dataLines = (joinSep "," (headers.map (fun h =>
        jsonStringifyVal ((first.lookup h).getD (JsonValue.str ""))))) ::
        rest.map (fun r => joinSep "," (headers.map (fun h =>
        jsonStringifyVal ((r.lookup h).getD (JsonValue.str ""))))) := by
      simp [hd]
    rw [hdl]
    show ((joinSep "," headers ++ "\n" ++ _).data.takeWhile _) = _
    rw [String.data_append, String.data_append]
    have : ("\n" : String).data = ['\n'] := rfl
    rw [this, List.append_assoc, List.singleton_append]
    exact takeWhile_nl_append _ _ (joinSep_comma_no_nl headers hheaders)

/-- `setMaField` never changes the `count` field. -/
theorem setMaField_count (win : Nat) (v : Option ℚ) (r : TrendRow) :
    (setMaField win v r).count = r.count := by
  unfold setMaField
  split
  · rfl
  split <;> rfl

/-- `setMaField 30` never changes the `ma7` field. -/
theorem setMaField_30_ma7 (v : Option ℚ) (r : TrendRow) :
    (setMaField 30 v r).ma7 = r.ma7 := rfl

/-- `setMaField 7` sets the `ma7` field. -/
theorem setMaField_7_ma7 (v : Option ℚ) (r : TrendRow) :
    (setMaField 7 v r).ma7 = v := rfl

/-- `setMaField 30` sets the `ma30` field. -/
theorem setMaField_30_ma30 (v : Option ℚ) (r : TrendRow) :
    (setMaField 30 v r).ma30 = v := rfl

/-- The running sum of the `movingAvg` loop after `k` iterations is the
difference of two prefix sums, and the emitted rows are `maOut`. -/
theorem maStep_foldl (data : List TrendRow) (key : TrendRow → ℚ) (win : Nat) :
    ∀ k, (List.range k).foldl (maStep data key win) ((0 : ℚ), []) =
      (keyPrefixSum data key k - keyPrefixSum data key (k - win),
       (List.range k).map (maOut data key win)) := by
  intro k
  induction k with
  | zero => simp [keyPrefixSum]
  | succ k ih =>
    rw [List.range_succ, List.foldl_append, ih]
    have hsum : keyPrefixSum data key (k + 1) =
        keyPrefixSum data key k + key (data.getD k default) := by
      unfold keyPrefixSum
      rw [List.range_succ]
      simp
    have hs2 : (if win ≤ k then
        keyPrefixSum data key k - keyPrefixSum data key (k - win) +
          key (data.getD k default) - key (data.getD (k - win) default)
      else
        keyPrefixSum data key k - keyPrefixSum data key (k - win) +
          key (data.getD k default)) =
        keyPrefixSum data key (k + 1) - keyPrefixSum data key (k + 1 - win) := by
      split
      · rename_i hwin
        have h1 : k + 1 - win = (k - win) + 1 := by omega
        have h2 : keyPrefixSum data key ((k - win) + 1) =
            keyPrefixSum data key (k - win) + key (data.getD (k - win) default) := by
          unfold keyPrefixSum
          rw [List.range_succ]
          simp
        rw [hsum, h1, h2]
        ring
      · rename_i hwin
        have h0 : k - win = 0 := by omega
        have h1 : k + 1 - win = 0 := by omega
        rw [hsum, h0, h1]
        have : keyPrefixSum data key 0 = 0 := rfl
        rw [this]
        ring
    simp only [List.foldl_cons, List.foldl_nil, maStep]
    rw [hs2, List.map_append]
    rfl

/-- `movingAvg` in closed form: the output is `maOut` at every index. -/
theorem movingAvg_eq_map (data : List TrendRow) (key : TrendRow → ℚ) (win : Nat) :
    movingAvg data key win = (List.range data.length).map (maOut data key win) := by
  unfold movingAvg
  rw [maStep_foldl]

/-- `movingAvg` preserves list length. -/
theorem movingAvg_length (data : List TrendRow) (key : TrendRow → ℚ) (win : Nat) :
    (movingAvg data key win).length = data.length := by
  rw [movingAvg_eq_map]
  simp

/-- Indexing the range-map form. -/
theorem getD_map_range {α : Type} (f : Nat → α) (n i : Nat) (d : α) (h : i < n) :
    ((List.range n).map f).getD i d = f i := by
  simp [List.getD, List.getElem?_map, List.getElem?_range h]

/-- `List.getD` past the end of the list. -/
theorem getD_of_length_le {α : Type} (l : List α) (i : Nat) (d : α)
    (h : l.length ≤ i) : l.getD i d = d := by
  simp [List.getD, List.getElem?_eq_none h]

/-- The `count` column read through `movingAvg` output equals the
original `count` column (also past the end, where both default to 0). -/
theorem movingAvg_getD_count (data : List TrendRow) (key : TrendRow → ℚ)
    (win : Nat) (j : Nat) :
    ((movingAvg data key win).getD j default).count = (data.getD j default).count := by
  by_cases hj : j < data.length
  · rw [movingAvg_eq_map, getD_map_range _ _ _ _ hj]
    unfold maOut
    rw [setMaField_count]
  · rw [getD_of_length_le _ _ _ (by rw [movingAvg_length]; omega),
      getD_of_length_le _ _ _ (by omega)]

/-- Prefix sums of the `count` column are unchanged by a `movingAvg` pass. -/
theorem keyPrefixSum_movingAvg (data : List TrendRow) (key : TrendRow → ℚ)
    (win n : Nat) :
    keyPrefixSum (movingAvg data key win) (fun r => r.count) n =
      keyPrefixSum data (fun r => r.count) n := by
  unfold keyPrefixSum
  refine congrArg List.sum (List.map_congr_left ?_)
  intro j _
  exact movingAvg_getD_count data key win j

/-- Window sums: the difference of prefix sums over `[0, i+1)` and
`[0, i+1-win)` is the sum over the window `[i+1-win, i+1)`. -/
theorem window_sum_eq (data : List TrendRow) (key : TrendRow → ℚ) (win i : Nat)
    (h : win ≤ i + 1) :
    keyPrefixSum data key (i + 1) - keyPrefixSum data key (i + 1 - win) =
      ((List.range' (i + 1 - win) win).map (fun j => key (data.getD j default))).sum := by
  unfold keyPrefixSum
  have hsplit : List.range' 0 (i + 1 - win) ++ List.range' (i + 1 - win) win =
      List.range' 0 (i + 1) := by
    have := List.range'_append_1 0 (i + 1 - win) win
    rw [Nat.zero_add] at this
    rw [this]
    congr 1
    omega
  rw [List.range_eq_range', List.range_eq_range', ← hsplit, List.map_append,
    List.sum_append]
  ring

/-- C1: `trendRows` preserves the length of the filtered series, and at
every index the `ma7` (resp. `ma30`) field is `null` below index 6
(resp. 29) and otherwise the mean of the 7 (resp. 30) most recent
original `count` values rounded to 2 decimals — the 30-day pass averages
the original counts, not the `ma7` values. -/
theorem c1_moving_averages (data : List TrendRow) :
    (trendRows data).length = data.length ∧
    ∀ i, i < data.length →
      ((trendRows data).getD i default).ma7 =
        (if 6 ≤ i then
          some (round2 ((((List.range' (i + 1 - 7) 7).map
            (fun j => (data.getD j default).count)).sum) / 7))
        else none) ∧
      ((trendRows data).getD i default).ma30 =
        (if 29 ≤ i then
          some (round2 ((((List.range' (i + 1 - 30) 30).map
            (fun j => (data.getD j default).count)).sum) / 30))
        else none) := by
  set inner := movingAvg data (fun r => r.count) 7 with hinner
  have hlen : inner.length = data.length := movingAvg_length _ _ _
  constructor
  · unfold trendRows
    rw [movingAvg_length, ← hinner, hlen]
  · intro i hi
    have hi' : i < inner.length := by rw [hlen]; exact hi
    have houter : (trendRows data).getD i default =
        maOut inner (fun r => r.count) 30 i := by
      unfold trendRows
      rw [← hinner, movingAvg_eq_map, getD_map_range _ _ _ _ hi']
    constructor
    · rw [houter]
      unfold maOut
      rw [setMaField_30_ma7]
      have hin : inner.getD i default = maOut data (fun r => r.count) 7 i := by
        rw [hinner, movingAvg_eq_map, getD_map_range _ _ _ _ hi]
      rw [hin]
      unfold maOut
      rw [setMaField_7_ma7]
      by_cases h7 : 6 ≤ i
      · rw [if_pos (show 7 - 1 ≤ i by omega), if_pos h7,
          window_sum_eq data _ 7 i (by omega)]
        norm_num
      · rw [if_neg (show ¬ 7 - 1 ≤ i by omega), if_neg h7]
    · rw [houter]
      unfold maOut
      rw [setMaField_30_ma30]
      by_cases h30 : 29 ≤ i
      · rw [if_pos (show 30 - 1 ≤ i by omega), if_pos h30,
          keyPrefixSum_movingAvg, keyPrefixSum_movingAvg,
          window_sum_eq data _ 30 i (by omega)]
        norm_num
      · rw [if_neg (show ¬ 30 - 1 ≤ i by omega), if_neg h30]

/-- `updateStat` never changes the `month` field. -/
theorem updateStat_month (row : TrendRow) (s : MonthlyStat) :
    (updateStat row s).month = s.month := by
  unfold updateStat
  dsimp only
  split <;> split <;> rfl

/-- `updateStat` adds the row's count to `total`. -/
theorem updateStat_total (row : TrendRow) (s : MonthlyStat) :
    (updateStat row s).total = s.total + row.count := by
  unfold updateStat
  dsimp only
  split <;> split <;> rfl

/-- `updateStat` increments `days`. -/
theorem updateStat_days (row : TrendRow) (s : MonthlyStat) :
    (updateStat row s).days = s.days + 1 := by
  unfold updateStat
  dsimp only
  split <;> split <;> rfl

/-- Searching by month commutes with the conditional in-place update of
the matching entry. -/
theorem find?_update_map (acc : List MonthlyStat) (key m : String) (row : TrendRow) :
    (acc.map (fun s => if s.month == key then updateStat row s else s)).find?
        (fun s => s.month == m) =
      (acc.find? (fun s => s.month == m)).map
        (fun s => if s.month == key then updateStat row s else s) := by
  rw [List.find?_map]
  have hp : ((fun s : MonthlyStat => s.month == m) ∘
      fun s => if s.month == key then updateStat row s else s) =
      (fun s : MonthlyStat => s.month == m) := by
    funext s
    by_cases h : s.month == key
    · simp [Function.comp, h, updateStat_month]
    · simp [Function.comp, h]
  rw [hp]

/-- Effect of one `monthlyTotals` iteration on the entry for month `m`. -/
theorem find?_monthlyStep (acc : List MonthlyStat) (row : TrendRow) (m : String) :
    (monthlyStep acc row).find? (fun s => s.month == m) =
      if monthKey row.date = m then
        some (updateStat row ((acc.find? (fun s => s.month == m)).getD
          (initStat m row)))
      else acc.find? (fun s => s.month == m) := by
  unfold monthlyStep
  dsimp only
  by_cases hkm : monthKey row.date = m
  · rw [if_pos hkm, hkm]
    by_cases hany : acc.any (fun s => s.month == m)
    · rw [if_pos hany, find?_update_map]
      cases hfind : acc.find? (fun s => s.month == m) with
      | none =>
        exfalso
        rcases List.any_eq_true.mp hany with ⟨x, hx, hpx⟩
        exact absurd hpx (by
          have := List.find?_eq_none.mp hfind x hx
          simpa using this)
      | some s =>
        have hsm := List.find?_some hfind
        simp [hsm]
        try (intro h; exact absurd (by simpa using hsm) h)
    · rw [if_neg hany]
      have hnone : acc.find? (fun s => s.month == m) = none := by
        rw [List.find?_eq_none]
        intro x hx hpx
        exact hany (List.any_eq_true.mpr ⟨x, hx, hpx⟩)
      rw [List.map_append, List.find?_append, find?_update_map, hnone]
      simp [initStat, updateStat_month]
  · rw [if_neg hkm]
    by_cases hany : acc.any (fun s => s.month == monthKey row.date)
    · rw [if_pos hany, find?_update_map]
      cases hfind : acc.find? (fun s => s.month == m) with
      | none => rfl
      | some s =>
        have hsm : s.month = m := by
          have := List.find?_some hfind
          simpa using this
        have hne : (s.month == monthKey row.date) = false := by
          simp only [beq_eq_false_iff_ne, ne_eq, hsm]
          intro h
          exact hkm h.symm
        simp [hne]
        try (intro h; exact absurd h (by simpa using hne))
    · rw [if_neg hany, List.map_append, List.find?_append, find?_update_map]
      have hlast : (([initStat (monthKey row.date) row].map
          (fun s => if s.month == monthKey row.date then updateStat row s else s)).find?
          (fun s => s.month == m)) = none := by
        simp [initStat, updateStat_month]
        intro h
        exact hkm h
      rw [hlast]
      cases hfind : acc.find? (fun s => s.month == m) with
      | none => rfl
      | some v =>
        have hv : v ∈ acc := List.mem_of_find?_eq_some hfind
        have hvne : (v.month == monthKey row.date) = false := by
          by_contra hc
          refine hany (List.any_eq_true.mpr ⟨v, hv, ?_⟩)
          simpa using hc
        simp [hvne]
        try (intro h; exact absurd h (by simpa using hvne))

/-- Effect of one `monthlyTotals` iteration on the viewed total and day
count for month `m`. -/
theorem view_monthlyStep (acc : List MonthlyStat) (row : TrendRow) (m : String) :
    statTotal ((monthlyStep acc row).find? (fun s => s.month == m)) =
      statTotal (acc.find? (fun s => s.month == m)) +
        (if monthKey row.date = m then row.count else 0) ∧
    statDays ((monthlyStep acc row).find? (fun s => s.month == m)) =
      statDays (acc.find? (fun s => s.month == m)) +
        (if monthKey row.date = m then 1 else 0) := by
  rw [find?_monthlyStep]
  by_cases hkm : monthKey row.date = m
  · rw [if_pos hkm, if_pos hkm, if_pos hkm]
    cases hfind : acc.find? (fun s => s.month == m) with
    | none => simp [statTotal, statDays, updateStat_total, updateStat_days, initStat]
    | some s => simp [statTotal, statDays, updateStat_total, updateStat_days]
  · rw [if_neg hkm, if_neg hkm, if_neg hkm]
    simp

/-- The accumulated view over a fold of `monthlyStep`: totals and day
counts for month `m` grow by exactly the contributions of the rows whose
month key is `m`. -/
theorem view_monthly_foldl (rows : List TrendRow) :
    ∀ (acc : List MonthlyStat) (m : String),
      statTotal ((rows.foldl monthlyStep acc).find? (fun s => s.month == m)) =
        statTotal (acc.find? (fun s => s.month == m)) +
          ((rows.filter (fun r => monthKey r.date == m)).map (fun r => r.count)).sum ∧
      statDays ((rows.foldl monthlyStep acc).find? (fun s => s.month == m)) =
        statDays (acc.find? (fun s => s.month == m)) +
          (rows.filter (fun r => monthKey r.date == m)).length := by
  induction rows with
  | nil => intro acc m; simp
  | cons row rest ih =>
    intro acc m
    rw [List.foldl_cons]
    obtain ⟨ihT, ihD⟩ := ih (monthlyStep acc row) m
    obtain ⟨hT, hD⟩ := view_monthlyStep acc row m
    rw [ihT, ihD, hT, hD]
    by_cases hkm : monthKey row.date = m
    · have hb : (monthKey row.date == m) = true := by simpa using hkm
      have hfc : (row :: rest).filter (fun r => monthKey r.date == m) =
          row :: rest.filter (fun r => monthKey r.date == m) := by
        simp [List.filter_cons, hb]
      rw [if_pos hkm, if_pos hkm, hfc, List.map_cons, List.sum_cons,
        List.length_cons]
      constructor
      · ring
      · omega
    · have hb : (monthKey row.date == m) = false := by simpa using hkm
      have hfc : (row :: rest).filter (fun r => monthKey r.date == m) =
          rest.filter (fun r => monthKey r.date == m) := by
        simp [List.filter_cons, hb]
      rw [if_neg hkm, if_neg hkm, hfc]
      constructor
      · ring
      · omega

/-- The month keys produced by one `monthlyTotals` iteration. -/
theorem months_monthlyStep (acc : List MonthlyStat) (row : TrendRow) :
    (monthlyStep acc row).map (fun s => s.month) =
      if acc.any (fun s => s.month == monthKey row.date) then
        acc.map (fun s => s.month)
      else acc.map (fun s => s.month) ++ [monthKey row.date] := by
  unfold monthlyStep
  dsimp only
  rw [List.map_map]
  have hcomp : ∀ l : List MonthlyStat,
      l.map ((fun s => s.month) ∘ fun s =>
        if s.month == monthKey row.date then updateStat row s else s) =
      l.map (fun s => s.month) := by
    intro l
    apply List.map_congr_left
    intro s _
    by_cases h : s.month == monthKey row.date <;>
      simp [Function.comp, h, updateStat_month]
  split
  · exact hcomp acc
  · rw [List.map_append, hcomp acc]
    congr 1
    simp [Function.comp, initStat, updateStat_month]

/-- The association list built by `monthlyTotals` has pairwise distinct
month keys. -/
theorem nodup_monthly_foldl (rows : List TrendRow) :
    ∀ acc : List MonthlyStat,
      (acc.map (fun s => s.month)).Nodup →
      ((rows.foldl monthlyStep acc).map (fun s => s.month)).Nodup := by
  induction rows with
  | nil => intro acc h; simpa using h
  | cons row rest ih =>
    intro acc h
    rw [List.foldl_cons]
    apply ih
    rw [months_monthlyStep]
    split
    · exact h
    · rename_i hany
      rw [List.nodup_append]
      refine ⟨h, List.nodup_singleton _, ?_⟩
      intro a ha hb
      rcases List.mem_singleton.mp hb with rfl
      rcases List.mem_map.mp ha with ⟨s, hsmem, hsm⟩
      exact hany (List.any_eq_true.mpr ⟨s, hsmem, by simp [hsm]⟩)

/-- In a list with pairwise distinct month keys, searching for a member's
month finds exactly that member. -/
theorem find?_of_mem_nodup (l : List MonthlyStat) (s : MonthlyStat)
    (hnd : (l.map (fun t => t.month)).Nodup) (hs : s ∈ l) :
    l.find? (fun t => t.month == s.month) = some s := by
  induction l with
  | nil => cases hs
  | cons a l ih =>
    rw [List.map_cons, List.nodup_cons] at hnd
    rcases List.mem_cons.mp hs with rfl | hs'
    · rw [List.find?_cons_of_pos]
      simp
    · rw [List.find?_cons_of_neg, ih hnd.2 hs']
      intro h
      have : a.month = s.month := by simpa using h
      exact hnd.1 (this ▸ List.mem_map_of_mem (fun t => t.month) hs')

/-- C5: for every month entry of `monthlyTotals`, `total` is the sum of
the counts of all trend rows with that month key, and — dates being
unique within the trend series, as the data model requires — `days` is
the number of distinct dates observed in that month. -/
theorem c5_monthly_totals (trendAll : List TrendRow) (s : MonthlyStat)
    (hs : s ∈ monthlyTotals trendAll) :
    s.total = ((trendAll.filter (fun r => monthKey r.date == s.month)).map
        (fun r => r.count)).sum ∧
    ((trendAll.map (fun r => r.date)).Nodup →
      s.days = ((trendAll.filter (fun r => monthKey r.date == s.month)).map
        (fun r => r.date)).dedup.length) := by
  have hmem : s ∈ trendAll.foldl monthlyStep [] := by
    have hperm := List.perm_insertionSort (fun a b : MonthlyStat => a.month ≤ b.month)
      (trendAll.foldl monthlyStep [])
    exact hperm.mem_iff.mp (by simpa [monthlyTotals] using hs)
  have hnd : ((trendAll.foldl monthlyStep []).map (fun t => t.month)).Nodup :=
    nodup_monthly_foldl trendAll [] (by simp)
  have hfind := find?_of_mem_nodup _ s hnd hmem
  obtain ⟨hT, hD⟩ := view_monthly_foldl trendAll [] s.month
  rw [hfind] at hT hD
  constructor
  · simpa [statTotal] using hT
  · intro hdate
    have hdays : s.days =
        (trendAll.filter (fun r => monthKey r.date == s.month)).length := by
      simpa [statDays] using hD
    have hsub : List.Sublist ((trendAll.filter
        (fun r => monthKey r.date == s.month)).map (fun r => r.date))
        (trendAll.map (fun r => r.date)) :=
      List.Sublist.map _ (List.filter_sublist _)
    have hnodup := List.Nodup.sublist hsub hdate
    rw [hdays, List.Nodup.dedup hnodup, List.length_map]

/-- Witness for C5 at a one-row input: the 2024-01 entry has total 10
and one distinct day. -/
theorem c5_monthly_totals_witness :
    c5Stat ∈ monthlyTotals [c5Row] ∧
    c5Stat.total = (([c5Row].filter (fun r => monthKey r.date == c5Stat.month)).map
        (fun r => r.count)).sum ∧
    c5Stat.days = (([c5Row].filter (fun r => monthKey r.date == c5Stat.month)).map
        (fun r => r.date)).dedup.length := by
  have hk : monthKey "2024-01-05" = "2024-01" := by decide
  have hs : c5Stat ∈ monthlyTotals [c5Row] := by
    simp [monthlyTotals, monthlyStep, updateStat, initStat, c5Stat, c5Row, hk,
      List.insertionSort, List.orderedInsert, lt_irrefl]
  have h := c5_monthly_totals [c5Row] c5Stat hs
  exact ⟨hs, h.1, h.2 (by decide)⟩

/-- Witness for C1 at the spec's eight-day scenario, index 7: `ma7` is
defined there and the length is preserved. -/
theorem c1_moving_averages_witness :
    (trendRows sampleTrend).length = sampleTrend.length ∧
    (((trendRows sampleTrend).getD 7 default).ma7 =
      (if 6 ≤ 7 then
        some (round2 ((((List.range' (7 + 1 - 7) 7).map
          (fun j => (sampleTrend.getD j default).count)).sum) / 7))
      else none) ∧
    ((trendRows sampleTrend).getD 7 default).ma30 =
      (if 29 ≤ 7 then
        some (round2 ((((List.range' (7 + 1 - 30) 30).map
          (fun j => (sampleTrend.getD j default).count)).sum) / 30))
      else none)) :=
  ⟨(c1_moving_averages sampleTrend).1,
   (c1_moving_averages sampleTrend).2 7 (by decide)⟩

/-- Witness for C9 at a concrete two-column, one-row input. -/
theorem c9_toCsv_structure_witness :
    ([( "a", JsonValue.str "x"), ("b", JsonValue.num 3)] :: [] =
      [("a", JsonValue.str "x"), ("b", JsonValue.num 3)] :: []) ∧
    (∀ h ∈ ([("a", JsonValue.str "x"), ("b", JsonValue.num 3)] : CsvRow).map
        (fun kv => kv.1), '\n' ∉ h.data) ∧
    ((toCsv [[("a", JsonValue.str "x"), ("b", JsonValue.num 3)]]).data.head? =
      some '﻿' ∧
    (toCsv [[("a", JsonValue.str "x"), ("b", JsonValue.num 3)]]).data.count '\n' =
      ([[("a", JsonValue.str "x"), ("b", JsonValue.num 3)]] : List CsvRow).length ∧
    ((toCsv [[("a", JsonValue.str "x"), ("b", JsonValue.num 3)]]).data.drop 1).takeWhile
        (fun c => c != '\n') =
      (joinSep "," (([("a", JsonValue.str "x"), ("b", JsonValue.num 3)] : CsvRow).map
        (fun kv => kv.1))).data) :=
  ⟨rfl, by decide,
   c9_toCsv_structure.2 [[("a", JsonValue.str "x"), ("b", JsonValue.num 3)]]
     [("a", JsonValue.str "x"), ("b", JsonValue.num 3)] [] rfl (by decide)⟩

/-- C4: after every change of year (including reloads that change the
month list), the repaired filter state satisfies: month is `"ALL"` or a
member of the month list of the selected year; year `"ALL"` forces month
`"ALL"`; an invalid year/month combination is never left standing. -/
theorem c4_month_revalidation (monthsByYear : List (String × List String))
    (year month : String) :
    (year = "ALL" → repairMonth monthsByYear year month = "ALL") ∧
    (year ≠ "ALL" →
      repairMonth monthsByYear year month = "ALL" ∨
      repairMonth monthsByYear year month ∈ (monthsByYear.lookup year).getD []) := by
  constructor
  · intro hy
    by_cases hm : month = "ALL" <;> simp [repairMonth, hy, hm]
  · intro hy
    simp only [repairMonth, if_neg hy]
    split
    · exact Or.inl rfl
    · rename_i h
      rw [Bool.and_eq_true, Bool.not_eq_true'] at h
      push_neg at h
      by_cases hm : month = "ALL"
      · exact Or.inl hm
      · right
        have := h (by simpa using hm)
        simpa [List.contains_iff_exists_mem_beq] using this

/-- Witness for C4 at a concrete state: year "2024" with a stale month
"2024-03" not in the 2024 month list is reset to "ALL". -/
theorem c4_month_revalidation_witness :
    ("2024" : String) ≠ "ALL" ∧
    (repairMonth [("2024", ["2024-01", "2024-02"])] "2024" "2024-03" = "ALL" ∨
      repairMonth [("2024", ["2024-01", "2024-02"])] "2024" "2024-03" ∈
        (([("2024", ["2024-01", "2024-02"])].lookup "2024").getD [])) :=
  ⟨by decide,
   (c4_month_revalidation [("2024", ["2024-01", "2024-02"])] "2024" "2024-03").2
     (by decide)⟩

/-- C6: in every reachable state of the duration controls, facet mode is
active only when `groupBy ≠ "none"` and `selection = "ALL"`; setting
`groupBy` to `"none"` always resets the selection to `"ALL"` and
`facetEnabled` to `false`; and any state violating the condition has
`facetEnabled` forced to `false` by the repair pass. -/
theorem c6_facet_invariant (catOpts modOpts : List String) (g : GroupConfig) :
    (facetActive g = true → g.groupBy ≠ "none" ∧ g.selection = "ALL") ∧
    (g.groupBy = "none" →
      (repairGroup catOpts modOpts g).selection = "ALL" ∧
      (repairGroup catOpts modOpts g).facetEnabled = false) ∧
    ((repairGroup catOpts modOpts g).facetEnabled = true →
      (repairGroup catOpts modOpts g).groupBy ≠ "none" ∧
      (repairGroup catOpts modOpts g).selection = "ALL") := by
  refine ⟨?_, ?_, ?_⟩
  · intro h
    simp only [facetActive, Bool.and_eq_true, beq_iff_eq, Bool.not_eq_true',
      beq_eq_false_iff_ne, ne_eq] at h
    exact ⟨h.1.1.2, h.1.2⟩
  · intro h
    simp [repairGroup, h]
  · intro h
    by_cases hnone : g.groupBy = "none"
    · exact absurd h (by simp [repairGroup, hnone])
    · by_cases hsel : g.selection = "ALL"
      · have hg : repairGroup catOpts modOpts g = g := by
          simp [repairGroup, if_neg hnone, hsel]
        rw [hg]
        exact ⟨hnone, hsel⟩
      · exfalso
        have hg : (repairGroup catOpts modOpts g).facetEnabled = false := by
          simp only [repairGroup, if_neg hnone]
          split
          · simp
          · split <;> (try simp_all) <;> split <;> simp_all
        rw [hg] at h
        exact Bool.false_ne_true h

/-- Witness for C6 at a concrete violating state: grouping by category
with a specific selection and faceting on; the repair pass turns
faceting off. -/
theorem c6_facet_invariant_witness :
    (facetActive ⟨"category", "ALL", true⟩ = true →
      ("category" : String) ≠ "none" ∧ ("ALL" : String) = "ALL") ∧
    (repairGroup ["A"] [] ⟨"none", "A", true⟩).selection = "ALL" ∧
    (repairGroup ["A"] [] ⟨"none", "A", true⟩).facetEnabled = false :=
  ⟨fun h => (c6_facet_invariant ["A"] [] ⟨"category", "ALL", true⟩).1 h,
   (c6_facet_invariant ["A"] [] ⟨"none", "A", true⟩).2.1 rfl⟩

/-- `round1` of zero is zero. -/
theorem round1_zero : round1 0 = 0 := by
  norm_num [round1, jsRound, Rat.floor]

/-- Accumulated weekday stats for a non-Saturday label: the base entry
plus the total count and number of the rows carrying that label. -/
theorem weekdayStats_foldl (dow : String → Option (Fin 7)) (rows : List TrendRow) :
    ∀ (stats : String → Option (ℚ × Nat)) (name : String), name ≠ "週六" →
      (rows.foldl (weekdayStatsStep dow) stats) name =
        (if (rows.filter (fun r => labelOf dow r == some name)).length = 0 then
          stats name
        else
          some (((stats name).getD (0, 0)).1 +
              ((rows.filter (fun r => labelOf dow r == some name)).map
                (fun r => r.count)).sum,
            ((stats name).getD (0, 0)).2 +
              (rows.filter (fun r => labelOf dow r == some name)).length)) := by
  induction rows with
  | nil =>
    intro stats name hn
    simp
  | cons row rest ih =>
    intro stats name hn
    rw [List.foldl_cons]
    cases hdow : dow row.date with
    | none =>
      have hstep : weekdayStatsStep dow stats row = stats := by
        unfold weekdayStatsStep
        rw [hdow]
      have hlab : (labelOf dow row == some name) = false := by
        simp [labelOf, hdow]
      have hfc : (row :: rest).filter (fun r => labelOf dow r == some name) =
          rest.filter (fun r => labelOf dow r == some name) := by
        simp [List.filter_cons, hlab]
      rw [hstep, ih stats name hn, hfc]
    | some d =>
      by_cases hsat : labelByDay.getD d.val "" = "週六"
      · have hstep : weekdayStatsStep dow stats row = stats := by
          unfold weekdayStatsStep
          rw [hdow]
          dsimp only
          rw [if_pos hsat]
        have hlab : (labelOf dow row == some name) = false := by
          simp only [labelOf, hdow, Option.map_some']
          simp only [beq_eq_false_iff_ne, ne_eq, Option.some.injEq]
          intro h
          exact hn (by rw [← h, hsat])
        have hfc : (row :: rest).filter (fun r => labelOf dow r == some name) =
            rest.filter (fun r => labelOf dow r == some name) := by
          simp [List.filter_cons, hlab]
        rw [hstep, ih stats name hn, hfc]
      · have hstep : weekdayStatsStep dow stats row =
            (fun n => if n = labelByDay.getD d.val "" then
              some ((((stats (labelByDay.getD d.val "")).getD (0, 0)).1 + row.count,
                ((stats (labelByDay.getD d.val "")).getD (0, 0)).2 + 1))
              else stats n) := by
          unfold weekdayStatsStep
          rw [hdow]
          dsimp only
          rw [if_neg hsat]
        by_cases hnl : name = labelByDay.getD d.val ""
        · have hlab : (labelOf dow row == some name) = true := by
            simp [labelOf, hdow, hnl]
          have hfc : (row :: rest).filter (fun r => labelOf dow r == some name) =
              row :: rest.filter (fun r => labelOf dow r == some name) := by
            simp [List.filter_cons, hlab]
          rw [hstep, ih _ name hn, hfc, if_pos hnl, ← hnl]
          rw [if_neg (show ¬ (row ::
            rest.filter (fun r => labelOf dow r == some name)).length = 0 by simp)]
          by_cases hlen : (rest.filter (fun r => labelOf dow r == some name)).length = 0
          · have hfe : rest.filter (fun r => labelOf dow r == some name) = [] :=
              List.length_eq_zero.mp hlen
            rw [if_pos hlen, hfe]
            simp
          · rw [if_neg hlen]
            simp only [Option.getD_some, List.map_cons, List.sum_cons,
              List.length_cons, Option.some.injEq, Prod.mk.injEq]
            constructor
            · ring
            · omega
        · have hlab : (labelOf dow row == some name) = false := by
            simp only [labelOf, hdow, Option.map_some']
            simp only [beq_eq_false_iff_ne, ne_eq, Option.some.injEq]
            intro h
            exact hnl h.symm
          have hfc : (row :: rest).filter (fun r => labelOf dow r == some name) =
              rest.filter (fun r => labelOf dow r == some name) := by
            simp [List.filter_cons, hlab]
          rw [hstep, ih _ name hn, hfc, if_neg hnl]

/-- C8: the weekday chart always reports Saturday (`"週六"`) with average
0 and total 0 regardless of the data, and every other weekday reports its
total and `total/days` over the observed days of that weekday (0 when
none), rounded to 1 decimal. -/
theorem c8_weekday_seasonality (dow : String → Option (Fin 7))
    (rows : List TrendRow) :
    (weekdayChartData dow rows).getD 5 default = ⟨"週六", 0, 0⟩ ∧
    ∀ e ∈ weekdayChartData dow rows, e.name ≠ "週六" →
      e.total = ((rows.filter (fun r => labelOf dow r == some e.name)).map
        (fun r => r.count)).sum ∧
      e.average = round1
        (if (rows.filter (fun r => labelOf dow r == some e.name)).length = 0 then 0
        else ((rows.filter (fun r => labelOf dow r == some e.name)).map
          (fun r => r.count)).sum /
          ((rows.filter (fun r => labelOf dow r == some e.name)).length : ℚ)) := by
  constructor
  · simp [weekdayChartData, weekOrder, round1_zero]
  · intro e he hne
    rw [show weekdayChartData dow rows = weekOrder.map (fun name =>
        { name := name,
          average := round1 (if name = "週六" then 0
            else
              match weekdayStats dow rows name with
              | some s => if s.2 ≠ 0 then s.1 / (s.2 : ℚ) else 0
              | none => 0),
          total := (if name = "週六" then 0
            else ((weekdayStats dow rows name).map (fun s => s.1)).getD 0) }) from rfl]
      at he
    obtain ⟨name, hnmem, rfl⟩ := List.mem_map.mp he
    have hne' : name ≠ "週六" := hne
    have hstats := weekdayStats_foldl dow rows (fun _ => none) name hne'
    have hws : weekdayStats dow rows name =
        (if (rows.filter (fun r => labelOf dow r == some name)).length = 0 then
          none
        else
          some (0 + ((rows.filter (fun r => labelOf dow r == some name)).map
              (fun r => r.count)).sum,
            0 + (rows.filter (fun r => labelOf dow r == some name)).length)) := by
      unfold weekdayStats
      rw [hstats]
      rfl
    by_cases hlen : (rows.filter (fun r => labelOf dow r == some name)).length = 0
    · have hfe : rows.filter (fun r => labelOf dow r == some name) = [] :=
        List.length_eq_zero.mp hlen
      rw [hws, if_pos hlen]
      constructor
      · dsimp only
        rw [if_neg hne', hfe]
        rfl
      · dsimp only
        rw [if_neg hne', if_pos hlen]
    · rw [hws, if_neg hlen]
      constructor
      · dsimp only
        rw [if_neg hne']
        simp
      · dsimp only
        rw [if_neg hne', if_neg hlen]
        congr 1
        rw [if_pos (by simpa using hlen)]
        simp

/-- Witness for C8 on the empty series: the Saturday row is zero, and the
Monday row reports an empty total and average. -/
theorem c8_weekday_seasonality_witness :
    (⟨"週一", 0, 0⟩ : WeekdayRow) ∈ weekdayChartData c8Dow [] ∧
    (⟨"週一", 0, 0⟩ : WeekdayRow).name ≠ "週六" ∧
    ((⟨"週一", 0, 0⟩ : WeekdayRow).total =
      ((([] : List TrendRow).filter (fun r =>
        labelOf c8Dow r == some (⟨"週一", 0, 0⟩ : WeekdayRow).name)).map
        (fun r => r.count)).sum ∧
    (⟨"週一", 0, 0⟩ : WeekdayRow).average = round1
      (if (([] : List TrendRow).filter (fun r =>
          labelOf c8Dow r == some (⟨"週一", 0, 0⟩ : WeekdayRow).name)).length = 0 then 0
      else ((([] : List TrendRow).filter (fun r =>
          labelOf c8Dow r == some (⟨"週一", 0, 0⟩ : WeekdayRow).name)).map
          (fun r => r.count)).sum /
        ((([] : List TrendRow).filter (fun r =>
          labelOf c8Dow r == some (⟨"週一", 0, 0⟩ : WeekdayRow).name)).length : ℚ))) := by
  have hmem : (⟨"週一", 0, 0⟩ : WeekdayRow) ∈ weekdayChartData c8Dow [] := by
    simp [weekdayChartData, weekdayStats, weekOrder, round1_zero]
  exact ⟨hmem, by decide,
    (c8_weekday_seasonality c8Dow []).2 _ hmem (by decide)⟩

/-- C7: the month-over-month and year-over-year percent changes equal
`(total - previous.total) / previous.total * 100`, are undefined when
the baseline total is 0 or the baseline is absent, and the year-over-year
baseline is the entry whose key is exactly one calendar year earlier,
independent of list position; the spec scenario
`{2023-06: 100, 2024-06: 150}` at `2024-06` yields +50%. -/
theorem c7_mom_yoy_percent :
    (∀ (totals baseList : List MonthlyStat) (sel : String) (cur prev : MonthlyStat),
      selectedMonthlyOf totals sel = some cur →
      previousMonthlyOf baseList sel = some prev →
      momPercentOf totals baseList sel =
        (if prev.total = 0 then none
         else some ((cur.total - prev.total) / prev.total * 100))) ∧
    (∀ (totals baseList : List MonthlyStat) (sel : String),
      previousMonthlyOf baseList sel = none →
      momPercentOf totals baseList sel = none) ∧
    (∀ (totals : List MonthlyStat) (sel k : String) (cur base : MonthlyStat),
      selectedMonthlyOf totals sel = some cur →
      yoyKeyOf sel = some k →
      (totals.map (fun s => s.month)).Nodup →
      base ∈ totals → base.month = k →
      yoyPercentOf totals sel =
        (if base.total = 0 then none
         else some ((cur.total - base.total) / base.total * 100))) ∧
    yoyKeyOf "2024-06" = some "2023-06" ∧
    yoyPercentOf c7Totals "2024-06" = some 50 := by
  refine ⟨?_, ?_, ?_, by decide, ?_⟩
  · intro totals baseList sel cur prev h1 h2
    unfold momPercentOf
    rw [h1, h2]
    by_cases hz : prev.total = 0
    · simp [hz]
    · simp [hz]
  · intro totals baseList sel h
    unfold momPercentOf
    rw [h]
    cases selectedMonthlyOf totals sel <;> rfl
  · intro totals sel k cur base h1 h2 hnd hmem hkey
    have hfind : totals.find? (fun t => t.month == base.month) = some base :=
      find?_of_mem_nodup totals base hnd hmem
    have hyoy : yoyMonthly totals sel = some base := by
      unfold yoyMonthly
      rw [h2, ← hkey]
      exact hfind
    unfold yoyPercentOf
    rw [h1, hyoy]
    by_cases hz : base.total = 0
    · simp [hz]
    · simp [hz]
  · have hk : yoyKeyOf "2024-06" = some "2023-06" := by decide
    have h1 : selectedMonthlyOf c7Totals "2024-06" =
        some ⟨"2024-06", 150, 30, dummyRow, dummyRow⟩ := rfl
    have h2 : yoyMonthly c7Totals "2024-06" =
        some ⟨"2023-06", 100, 30, dummyRow, dummyRow⟩ := by
      unfold yoyMonthly
      rw [hk]
      rfl
    unfold yoyPercentOf
    rw [h1, h2]
    norm_num

/-- Witness for C7 at the spec scenario: the year-ago entry sits after
the selected one in the list, and the formula still applies to it. -/
theorem c7_mom_yoy_percent_witness :
    selectedMonthlyOf c7Totals "2024-06" =
      some ⟨"2024-06", 150, 30, dummyRow, dummyRow⟩ ∧
    yoyKeyOf "2024-06" = some "2023-06" ∧
    yoyPercentOf c7Totals "2024-06" =
      (if (⟨"2023-06", 100, 30, dummyRow, dummyRow⟩ : MonthlyStat).total = 0 then
        none
      else
        some (((⟨"2024-06", 150, 30, dummyRow, dummyRow⟩ : MonthlyStat).total -
            (⟨"2023-06", 100, 30, dummyRow, dummyRow⟩ : MonthlyStat).total) /
          (⟨"2023-06", 100, 30, dummyRow, dummyRow⟩ : MonthlyStat).total * 100)) :=
  ⟨rfl, by decide,
   c7_mom_yoy_percent.2.2.1 c7Totals "2024-06" "2023-06"
     ⟨"2024-06", 150, 30, dummyRow, dummyRow⟩
     ⟨"2023-06", 100, 30, dummyRow, dummyRow⟩
     rfl (by decide) (by decide)
     (List.mem_cons_of_mem _ (List.mem_cons_self _ _)) rfl⟩

/-- `durationBase` in closed form: clamped finite rows and missing rows. -/
theorem durationBase_eq (calls : List CallRow) :
    durationBase calls =
      (calls.filterMap (fun c => c.duration.map (fun d =>
        (⟨max 0 d, normalizeCategory c, normalizeModule c⟩ : DurationRow))),
       calls.filter (fun c => c.duration.isNone)) := by
  have h : ∀ (cs : List CallRow) (acc : List DurationRow × List CallRow),
      cs.foldl durationBaseStep acc =
        (acc.1 ++ cs.filterMap (fun c => c.duration.map (fun d =>
          (⟨max 0 d, normalizeCategory c, normalizeModule c⟩ : DurationRow))),
         acc.2 ++ cs.filter (fun c => c.duration.isNone)) := by
    intro cs
    induction cs with
    | nil => intro acc; simp
    | cons c rest ih =>
      intro acc
      rw [List.foldl_cons, ih]
      cases hc : c.duration with
      | none =>
        simp [durationBaseStep, hc, List.filterMap_cons, List.filter_cons]
      | some d =>
        simp [durationBaseStep, hc, List.filterMap_cons, List.filter_cons]
  unfold durationBase
  rw [h calls ([], [])]
  simp

/-- Length of the binning population after an arbitrary row-level filter,
as a count over the raw calls. -/
theorem filter_filterMap_length (calls : List CallRow) (q : DurationRow → Bool)
    (q' : CallRow → Bool)
    (hq : ∀ (c : CallRow) (d : ℚ),
      q ⟨max 0 d, normalizeCategory c, normalizeModule c⟩ = q' c) :
    ((calls.filterMap (fun c => c.duration.map (fun d =>
      (⟨max 0 d, normalizeCategory c, normalizeModule c⟩ : DurationRow)))).filter
      q).length =
    (calls.filter (fun c => c.duration.isSome && q' c)).length := by
  induction calls with
  | nil => simp
  | cons c rest ih =>
    cases hc : c.duration with
    | none =>
      rw [List.filterMap_cons, List.filter_cons]
      simp [hc, ih]
    | some d =>
      rw [List.filterMap_cons, List.filter_cons]
      simp only [hc, Option.map_some', Option.isSome_some, Bool.true_and,
        List.filter_cons]
      rw [hq c d]
      cases hq' : q' c with
      | true => simp [hq', ih]
      | false => simp [hq', ih]

/-- The group-selection filter over the binning population counts the
in-scope rows with a finite duration. -/
theorem active_length (groupBy selection : String) (calls : List CallRow) :
    (activeRowsOf groupBy selection (durationBase calls).1).length =
      (calls.filter (fun c => c.duration.isSome &&
        matchesSel groupBy selection c)).length := by
  rw [durationBase_eq]
  unfold activeRowsOf matchesSel
  by_cases h1 : groupBy = "category" ∧ selection ≠ "ALL"
  · rw [if_pos h1]
    simp only [if_pos h1]
    exact filter_filterMap_length calls _ _ (fun c d => rfl)
  · rw [if_neg h1]
    simp only [if_neg h1]
    by_cases h2 : groupBy = "module" ∧ selection ≠ "ALL"
    · rw [if_pos h2]
      simp only [if_pos h2]
      exact filter_filterMap_length calls _ _ (fun c d => rfl)
    · rw [if_neg h2]
      simp only [if_neg h2]
      have := filter_filterMap_length calls (fun _ => true) (fun _ => true)
        (fun c d => rfl)
      simpa using this

/-- The fixed bin ladder is never empty. -/
theorem buildFixedBins_ne_nil (limit : Option ℚ) (vs : List ℚ) :
    buildFixedBins limit vs ≠ [] := by
  unfold buildFixedBins
  dsimp only
  split
  · simp
  · assumption

/-- Length of the auto-bin construction loop. -/
theorem autoBins_loop_length (maxValue width : ℚ) (desired : Nat) :
    ∀ (n : Nat) (st : ℚ × List Bin),
      (((List.range n).foldl (fun (st : ℚ × List Bin) i =>
        let e := if i = desired - 1 then maxValue else st.1 + width
        (e, st.2 ++ [⟨st.1, some e, formatDurationLabel st.1 (some e)⟩])) st)).2.length =
      st.2.length + n := by
  intro n
  induction n with
  | zero => intro st; simp
  | succ n ih =>
    intro st
    rw [List.range_succ, List.foldl_append, List.foldl_cons, List.foldl_nil]
    dsimp only
    rw [List.length_append, ih st]
    simp
    omega

/-- The auto bins are never empty. -/
theorem buildAutoBins_ne_nil (focusLimit : Option ℚ)
    (valuesSorted valuesForBins : List ℚ) :
    buildAutoBins focusLimit valuesSorted valuesForBins ≠ [] := by
  unfold buildAutoBins
  dsimp only
  split
  · simp
  · split
    · simp
    · intro hnil
      have hlen := congrArg List.length hnil
      rw [autoBins_loop_length] at hlen
      simp at hlen

/-- The linear scan returns an index inside the base bins. -/
theorem assignLoop_lt (bins : List Bin) (h : bins ≠ []) (v : ℚ) :
    assignLoop bins v < bins.length := by
  have hpos : 0 < bins.length := List.length_pos.mpr h
  unfold assignLoop
  cases hf : (List.range bins.length).find? _ with
  | none =>
    simp only [Option.getD_none]
    omega
  | some i =>
    have hi : i ∈ List.range bins.length := List.mem_of_find?_eq_some hf
    simp only [Option.getD_some]
    exact List.mem_range.mp hi

/-- `bumpAt` preserves length. -/
theorem bumpAt_length (l : List (Bin × Nat)) (i : Nat) :
    (bumpAt l i).length = l.length := by
  simp [bumpAt]

/-- `bumpAt` at a valid index increases the count total by one. -/
theorem sum_bumpAt (l : List (Bin × Nat)) (i : Nat) (h : i < l.length) :
    ((bumpAt l i).map (fun bc => bc.2)).sum = ((l.map (fun bc => bc.2)).sum) + 1 := by
  induction l generalizing i with
  | nil => simp at h
  | cons a l ih =>
    cases i with
    | zero =>
      simp [bumpAt, List.set]
      omega
    | succ n =>
      have hn : n < l.length := by simpa using h
      have : bumpAt (a :: l) (n + 1) = a :: bumpAt l n := by
        simp [bumpAt, List.set]
      rw [this]
      simp only [List.map_cons, List.sum_cons]
      rw [ih n hn]
      omega

/-- The binning loop adds one count per row when every assignment stays
in range. -/
theorem tally_sum (assign : ℚ → Nat) (rows : List DurationRow) :
    ∀ init : List (Bin × Nat), (∀ v, assign v < init.length) →
      ((tallyBins assign rows init).map (fun bc => bc.2)).sum =
        ((init.map (fun bc => bc.2)).sum) + rows.length := by
  induction rows with
  | nil => intro init _; simp [tallyBins]
  | cons row rest ih =>
    intro init hb
    unfold tallyBins
    rw [List.foldl_cons]
    have hb2 : ∀ v, assign v < (bumpAt init (assign row.minutes)).length := by
      intro v
      rw [bumpAt_length]
      exact hb v
    have := ih (bumpAt init (assign row.minutes)) hb2
    unfold tallyBins at this
    rw [this, sum_bumpAt init _ (hb row.minutes)]
    simp
    omega

/-- Initial bin counts are all zero. -/
theorem init_counts_zero (l : List Bin) :
    (((l.map (fun b => (b, 0))).map (fun bc => bc.2)).sum) = 0 := by
  induction l with
  | nil => rfl
  | cons b l ih => simpa using ih

/-- Dropping the auto-mode empty bins does not change the count total. -/
theorem sum_durationResultRows (binMode : String) (l : List (Bin × Nat)) :
    ((durationResultRows binMode l).map (fun bc => bc.2)).sum =
      ((l.map (fun bc => bc.2)).sum) := by
  unfold durationResultRows
  induction l with
  | nil => rfl
  | cons bc l ih =>
    rw [List.filter_cons]
    by_cases hz : bc.2 = 0
    · split
      · simpa using ih
      · simp only [List.map_cons, List.sum_cons, hz, ih]
        omega
    · have : (!(decide (bc.2 = 0) && decide (bc.1.max ≠ none) &&
          decide (binMode ≠ "fixed"))) = true := by
        simp [hz]
      rw [if_pos this]
      simpa using ih

/-- The fixed ladder under the 30-minute focus: the six bins up to 30. -/
theorem buildFixedBins_focus30 (vs : List ℚ) :
    buildFixedBins (some 30) vs =
      [⟨0, some 3, formatDurationLabel 0 (some 3)⟩,
       ⟨3, some 5, formatDurationLabel 3 (some 5)⟩,
       ⟨5, some 10, formatDurationLabel 5 (some 10)⟩,
       ⟨10, some 15, formatDurationLabel 10 (some 15)⟩,
       ⟨15, some 20, formatDurationLabel 15 (some 20)⟩,
       ⟨20, some 30, formatDurationLabel 20 (some 30)⟩] := by
  unfold buildFixedBins FIXED_DURATION_BINS
  dsimp only
  norm_num [List.filter]
  exact List.cons_ne_nil _ _

/-- The fixed ladder without focus: all twelve bins. -/
theorem buildFixedBins_none (vs : List ℚ) :
    buildFixedBins none vs =
      [⟨0, some 3, formatDurationLabel 0 (some 3)⟩,
       ⟨3, some 5, formatDurationLabel 3 (some 5)⟩,
       ⟨5, some 10, formatDurationLabel 5 (some 10)⟩,
       ⟨10, some 15, formatDurationLabel 10 (some 15)⟩,
       ⟨15, some 20, formatDurationLabel 15 (some 20)⟩,
       ⟨20, some 30, formatDurationLabel 20 (some 30)⟩,
       ⟨30, some 45, formatDurationLabel 30 (some 45)⟩,
       ⟨45, some 60, formatDurationLabel 45 (some 60)⟩,
       ⟨60, some 90, formatDurationLabel 60 (some 90)⟩,
       ⟨90, some 120, formatDurationLabel 90 (some 120)⟩,
       ⟨120, some 180, formatDurationLabel 120 (some 180)⟩,
       ⟨180, none, formatDurationLabel 180 none⟩] := by
  unfold buildFixedBins FIXED_DURATION_BINS
  dsimp only
  simp only [List.map_cons, List.map_nil]
  rw [if_neg (by exact List.cons_ne_nil _ _)]

/-- C10: rows whose duration parses to a finite negative value are
clamped to 0 minutes and kept in the binning population — landing in the
lowest fixed bin under either focus setting — while exactly the rows with
a non-finite or absent duration go to the missing bucket. -/
theorem c10_negative_durations (calls : List CallRow) :
    (durationBase calls).2 = calls.filter (fun c => c.duration.isNone) ∧
    (durationBase calls).1.length =
      (calls.filter (fun c => c.duration.isSome)).length ∧
    (∀ c ∈ calls, ∀ d : ℚ, c.duration = some d → d < 0 →
      (⟨0, normalizeCategory c, normalizeModule c⟩ : DurationRow) ∈
        (durationBase calls).1) ∧
    (∀ vs : List ℚ, assignLoop (buildFixedBins (some 30) vs) 0 = 0) ∧
    (∀ vs : List ℚ, assignLoop (buildFixedBins none vs) 0 = 0) := by
  refine ⟨?_, ?_, ?_, ?_, ?_⟩
  · rw [durationBase_eq]
  · rw [durationBase_eq]
    have := filter_filterMap_length calls (fun _ => true) (fun _ => true)
      (fun c d => rfl)
    simpa using this
  · intro c hc d hd hneg
    rw [durationBase_eq]
    refine List.mem_filterMap.mpr ⟨c, hc, ?_⟩
    rw [hd, Option.map_some']
    have : max (0 : ℚ) d = 0 := max_eq_left hneg.le
    rw [this]
  · intro vs
    rw [buildFixedBins_focus30]
    norm_num [assignLoop, List.range, List.range.loop, List.find?, List.getD,
      List.getElem?_cons_zero, List.getElem?_cons_succ, Option.getD_some]
  · intro vs
    rw [buildFixedBins_none]
    norm_num [assignLoop, List.range, List.range.loop, List.find?, List.getD,
      List.getElem?_cons_zero, List.getElem?_cons_succ, Option.getD_some]

/-- Witness for C10 at a single row of parsed duration −3: the row is in
the input, its duration is negative, and the clamped 0-minute row is in
the binning population; the value 0 lands in the first fixed bin. -/
theorem c10_negative_durations_witness :
    ((⟨some (-3), none, none⟩ : CallRow) ∈ c10Calls) ∧
    ((-3 : ℚ) < 0) ∧
    ((⟨0, normalizeCategory ⟨some (-3), none, none⟩,
        normalizeModule ⟨some (-3), none, none⟩⟩ : DurationRow) ∈
      (durationBase c10Calls).1) ∧
    assignLoop (buildFixedBins (some 30) []) 0 = 0 :=
  ⟨List.mem_cons_self _ _, by norm_num,
   (c10_negative_durations c10Calls).2.2.1 _ (List.mem_cons_self _ _) (-3) rfl
     (by norm_num),
   (c10_negative_durations c10Calls).2.2.2.1 []⟩

/-- The selection filter of an empty population is empty. -/
theorem activeRowsOf_nil (groupBy selection : String) :
    activeRowsOf groupBy selection [] = [] := by
  unfold activeRowsOf
  split
  · rfl
  split
  · rfl
  rfl

/-- C3 (amended): in non-focus mode the per-bin counts of the duration
histogram sum to the number of in-scope rows with a finite duration;
adding `missingCount` gives that number plus the number of *all*
year/month-filtered rows without a finite duration — the missing bucket
is not filtered by the group selection. -/
theorem c3_duration_sums (binMode groupBy selection : String)
    (calls : List CallRow) :
    ((durationResultRows binMode
        (durationChartBins binMode false groupBy selection calls).1).map
        (fun bc => bc.2)).sum =
      (calls.filter (fun c => c.duration.isSome &&
        matchesSel groupBy selection c)).length ∧
    ((durationResultRows binMode
        (durationChartBins binMode false groupBy selection calls).1).map
        (fun bc => bc.2)).sum +
      (durationChartBins binMode false groupBy selection calls).2.2 =
      (calls.filter (fun c => c.duration.isSome &&
        matchesSel groupBy selection c)).length +
      (calls.filter (fun c => c.duration.isNone)).length := by
  have hmiss : (durationChartBins binMode false groupBy selection calls).2.2 =
      (calls.filter (fun c => c.duration.isNone)).length := by
    unfold durationChartBins
    dsimp only
    split
    · simp [durationBase_eq]
    · split
      · simp [durationBase_eq]
      · simp [durationBase_eq]
  have h1 : ((durationResultRows binMode
      (durationChartBins binMode false groupBy selection calls).1).map
      (fun bc => bc.2)).sum =
      (calls.filter (fun c => c.duration.isSome &&
        matchesSel groupBy selection c)).length := by
    rw [← active_length groupBy selection calls]
    unfold durationChartBins
    simp only [Bool.false_eq_true, if_false]
    split
    · rename_i hnil
      rw [hnil, activeRowsOf_nil]
      simp [durationResultRows]
    · split
      · rename_i hact
        rw [hact]
        simp [durationResultRows]
      · rename_i hnil hact
        rw [sum_durationResultRows]
        have hne : (if binMode = "fixed" then
            buildFixedBins none (List.insertionSort (fun a b => a ≤ b)
              ((activeRowsOf groupBy selection (durationBase calls).1).map
                (fun r => r.minutes)))
          else
            buildAutoBins none (List.insertionSort (fun a b => a ≤ b)
              ((activeRowsOf groupBy selection (durationBase calls).1).map
                (fun r => r.minutes)))
              ((activeRowsOf groupBy selection (durationBase calls).1).map
                (fun r => r.minutes))) ≠ [] := by
          split
          · exact buildFixedBins_ne_nil _ _
          · exact buildAutoBins_ne_nil _ _ _
        rw [tally_sum _ _ _ ?_]
        · rw [init_counts_zero]
          omega
        · intro v
          rw [List.length_map]
          exact assignLoop_lt _ hne v
  exact ⟨h1, by rw [h1, hmiss]⟩

/-- C3 counterexample: with group selection `"A"` active, a missing-
duration row of category `"B"` is still counted in `missingCount`, so
bin counts plus `missingCount` (= 2) exceed the number of in-scope rows
(= 1). -/
theorem c3_counterexample :
    ¬ (((durationResultRows "fixed"
        (durationChartBins "fixed" false "category" "A" c3Calls).1).map
        (fun bc => bc.2)).sum +
      (durationChartBins "fixed" false "category" "A" c3Calls).2.2 =
      (c3Calls.filter (fun c => matchesSel "category" "A" c)).length) := by
  have hA : normalizeCategory ⟨some 5, some "A", none⟩ = "A" := by decide
  have hB : normalizeCategory ⟨none, some "B", none⟩ = "B" := by decide
  have hM1 : normalizeModule ⟨some 5, some "A", none⟩ = "未指派" := by decide
  have hbase : durationBase
      [(⟨some 5, some "A", none⟩ : CallRow), ⟨none, some "B", none⟩] =
      ([⟨5, "A", "未指派"⟩], [⟨none, some "B", none⟩]) := by
    norm_num [durationBase, durationBaseStep, hA, hM1, max_def, List.foldl]
  have hM2 : normalizeModule ⟨none, some "B", none⟩ = "未指派" := by decide
  have e1 : ("A" = "ALL") = False := eq_false (by decide)
  have e2 : ("category" = "module") = False := eq_false (by decide)
  have e3 : (("B" : String) == "A") = false := by decide
  have e4 : (("A" : String) == "A") = true := by decide
  have e5 : (("未指派" : String) == "A") = false := by decide
  norm_num [durationChartBins, hbase, activeRowsOf, buildFixedBins_none,
    assignRowToBinIndex, assignLoop, tallyBins, bumpAt, durationResultRows,
    matchesSel, c3Calls, hA, hB, hM1, hM2, e1, e2, e3, e4, e5,
    List.insertionSort, List.orderedInsert,
    List.range, List.range.loop, List.find?, List.getD, List.set, List.filter,
    List.foldl, List.getElem?_cons_zero, List.getElem?_cons_succ,
    Option.getD_some, Option.getD_none]

/-- Label of the 0-3 minute bin. -/
theorem fdl03 : formatDurationLabel 0 (some 3) = "0-3 分" := by
  have ha : jsRound (0 : ℚ) = 0 := by norm_num [jsRound, Rat.floor]
  have hb : jsRound (3 : ℚ) = 3 := by norm_num [jsRound, Rat.floor]
  simp only [formatDurationLabel, ha, hb]
  rw [if_neg (by decide)]
  decide

/-- Label of the 3-5 minute bin. -/
theorem fdl35 : formatDurationLabel 3 (some 5) = "3-5 分" := by
  have ha : jsRound (3 : ℚ) = 3 := by norm_num [jsRound, Rat.floor]
  have hb : jsRound (5 : ℚ) = 5 := by norm_num [jsRound, Rat.floor]
  simp only [formatDurationLabel, ha, hb]
  rw [if_neg (by decide)]
  decide

/-- Label of the 5-10 minute bin. -/
theorem fdl510 : formatDurationLabel 5 (some 10) = "5-10 分" := by
  have ha : jsRound (5 : ℚ) = 5 := by norm_num [jsRound, Rat.floor]
  have hb : jsRound (10 : ℚ) = 10 := by norm_num [jsRound, Rat.floor]
  simp only [formatDurationLabel, ha, hb]
  rw [if_neg (by decide)]
  decide

/-- Label of the 10-15 minute bin. -/
theorem fdl1015 : formatDurationLabel 10 (some 15) = "10-15 分" := by
  have ha : jsRound (10 : ℚ) = 10 := by norm_num [jsRound, Rat.floor]
  have hb : jsRound (15 : ℚ) = 15 := by norm_num [jsRound, Rat.floor]
  simp only [formatDurationLabel, ha, hb]
  rw [if_neg (by decide)]
  decide

/-- Label of the 15-20 minute bin. -/
theorem fdl1520 : formatDurationLabel 15 (some 20) = "15-20 分" := by
  have ha : jsRound (15 : ℚ) = 15 := by norm_num [jsRound, Rat.floor]
  have hb : jsRound (20 : ℚ) = 20 := by norm_num [jsRound, Rat.floor]
  simp only [formatDurationLabel, ha, hb]
  rw [if_neg (by decide)]
  decide

/-- Label of the 20-30 minute bin. -/
theorem fdl2030 : formatDurationLabel 20 (some 30) = "20-30 分" := by
  have ha : jsRound (20 : ℚ) = 20 := by norm_num [jsRound, Rat.floor]
  have hb : jsRound (30 : ℚ) = 30 := by norm_num [jsRound, Rat.floor]
  simp only [formatDurationLabel, ha, hb]
  rw [if_neg (by decide)]
  decide

/-- Label of the focus-30 overflow bin. -/
theorem overflow30_label : jsNumToString 30 ++ "+ 分" = "30+ 分" := by
  have hd : (30 : ℚ).den = 1 := by norm_num [Rat.den_ofNat]
  have hn : (30 : ℚ).num = 30 := by norm_num [Rat.num_ofNat]
  simp only [jsNumToString, hd, hn, if_pos]
  decide

/-- Evaluation of the C2 scenario: fixed binning, focus-30, durations
5, 12, 45 and 200. -/
theorem c2_bins_eval :
    ((durationChartBins "fixed" true "none" "ALL" c2Calls).1.map
      (fun bc => (bc.1.label, bc.2))) =
      [("0-3 分", 0), ("3-5 分", 0), ("5-10 分", 1), ("10-15 分", 1),
       ("15-20 分", 0), ("20-30 分", 0), ("30+ 分", 2)] := by
  have hc : ∀ m : Option ℚ, normalizeCategory ⟨m, none, none⟩ = "未分類" := by
    intro m
    rfl
  have hm : ∀ m : Option ℚ, normalizeModule ⟨m, none, none⟩ = "未指派" := by
    intro m
    rfl
  have hbase : durationBase
      [(⟨some 5, none, none⟩ : CallRow), ⟨some 12, none, none⟩,
        ⟨some 45, none, none⟩, ⟨some 200, none, none⟩] =
      ([⟨5, "未分類", "未指派"⟩, ⟨12, "未分類", "未指派"⟩,
        ⟨45, "未分類", "未指派"⟩, ⟨200, "未分類", "未指派"⟩], []) := by
    norm_num [durationBase, durationBaseStep, hc, hm, max_def, List.foldl]
  have hner : ([⟨5, "未分類", "未指派"⟩, ⟨12, "未分類", "未指派"⟩,
      ⟨45, "未分類", "未指派"⟩, ⟨200, "未分類", "未指派"⟩] : List DurationRow) ≠ [] :=
    List.cons_ne_nil _ _
  have hne2 : ([⟨45, "未分類", "未指派"⟩, ⟨200, "未分類", "未指派"⟩] :
      List DurationRow) ≠ [] := List.cons_ne_nil _ _
  norm_num [durationChartBins, hbase, c2Calls, activeRowsOf, hc, hm,
    hner, hne2, buildFixedBins_focus30, assignRowToBinIndex, assignLoop,
    tallyBins, bumpAt,
    fdl03, fdl35, fdl510, fdl1015, fdl1520, fdl2030, overflow30_label,
    List.insertionSort, List.orderedInsert, List.range, List.range.loop,
    List.find?, List.getD, List.set, List.filter, List.foldl,
    List.getElem?_cons_zero, List.getElem?_cons_succ, Option.getD_some,
    Option.getD_none]

/-- C2 counterexample: in the spec scenario the bin labelled `"3-5 分"`
counts 0 rows, not 1 — the value 5 is counted in `"5-10 分"`, because bin
ranges are inclusive below and exclusive above. -/
theorem c2_counterexample :
    ¬ (((durationChartBins "fixed" true "none" "ALL" c2Calls).1.map
      (fun bc => (bc.1.label, bc.2))).lookup "3-5 分" = some 1) ∧
    ((durationChartBins "fixed" true "none" "ALL" c2Calls).1.map
      (fun bc => (bc.1.label, bc.2))).lookup "3-5 分" = some 0 ∧
    ((durationChartBins "fixed" true "none" "ALL" c2Calls).1.map
      (fun bc => (bc.1.label, bc.2))).lookup "5-10 分" = some 1 := by
  rw [c2_bins_eval]
  refine ⟨by decide, by decide, by decide⟩

/-- C2 (amended): the scenario produces exactly the bins
`0-3, 3-5, 5-10, 10-15, 15-20, 20-30` plus the overflow bin `"30+ 分"`,
with 5 counted in `"5-10 分"`, 12 in `"10-15 分"`, and 45 and 200 in
`"30+ 分"`. -/
theorem c2_fixed_focus_scenario :
    ((durationChartBins "fixed" true "none" "ALL" c2Calls).1.map
      (fun bc => (bc.1.label, bc.2))) =
      [("0-3 分", 0), ("3-5 分", 0), ("5-10 分", 1), ("10-15 分", 1),
       ("15-20 分", 0), ("20-30 分", 0), ("30+ 分", 2)] :=
  c2_bins_eval

end IvvDashboard
